import Mathlib

/-!
Verification development for the HEL (Host Expression Language) engine.

This file shallowly embeds the Rust sources of the engine:

* src/lib.rs       — value model, comparison kernel, AST, evaluator, scripts
* src/trace.rs     — traced evaluation and facts-used tracking
* src/builtins.rs  — namespaced built-ins registry and the core provider
* src/schema/package.rs — package dependency resolution (resolve_all)

Conventions used throughout the embedding:

* Rust f64 is modelled by the type HF below: a distinguished NaN value plus
  rationals for the ordinary (finite) floats.  The claims under study only
  exercise NaN propagation and the ordering of ordinary numbers, which this
  model captures; infinities and rounding are not exercised by any claim.
* Rust BTreeMap and HashMap values are modelled by association lists (for
  lookup-oriented maps) or by a function model (for the variable environment),
  mirroring the get/insert/contains_key operations that the source uses.
* Rust to_lowercase and to_uppercase are modelled on the ASCII range, which is
  the range exercised by the engine and its tests.
* Fallible Rust functions returning Result are modelled with Except.
* A Rust panic (for example a failed .expect) is modelled explicitly by the
  PanicOr type, so that aborting and returning an error stay distinguishable.
-/

/-- Model of Rust f64 restricted to what the engine observes: a NaN value and
ordinary numbers (as rationals).  Comparisons mirror IEEE behaviour on the
modelled range: NaN is not equal to, nor ordered against, anything. -/
inductive HF where
  | nan : HF
  | q : ℚ → HF
deriving DecidableEq

/-- Rust f64::is_nan. -/
def HF.is_nan : HF → Bool
  | .nan => true
  | .q _ => false

/-- Rust f64 equality (==): false whenever a side is NaN. -/
def HF.feq : HF → HF → Bool
  | .q a, .q b => a == b
  | _, _ => false

/-- Rust f64 strict greater-than: false whenever a side is NaN. -/
def HF.fgt : HF → HF → Bool
  | .q a, .q b => decide (a > b)
  | _, _ => false

/-- Rust f64 greater-or-equal: false whenever a side is NaN. -/
def HF.fge : HF → HF → Bool
  | .q a, .q b => decide (a ≥ b)
  | _, _ => false

/-- Rust f64 strict less-than: false whenever a side is NaN. -/
def HF.flt : HF → HF → Bool
  | .q a, .q b => decide (a < b)
  | _, _ => false

/-- Rust f64 less-or-equal: false whenever a side is NaN. -/
def HF.fle : HF → HF → Bool
  | .q a, .q b => decide (a ≤ b)
  | _, _ => false

/-- Comparator (src/lib.rs): the closed set of comparison operators. -/
inductive Comparator where
  | Eq | Ne | Gt | Ge | Lt | Le | Contains | In
deriving DecidableEq

/-- Runtime Value (src/lib.rs).  Map is a BTreeMap in the source; it is
modelled as an association list kept in key-sorted order by mapInsert. -/
inductive Value where
  | null : Value
  | bool : Bool → Value
  | str : String → Value
  | num : HF → Value
  | list : List Value → Value
  | map : List (String × Value) → Value

/-- Substring test on lists of characters (Rust str::contains with a string
needle; for valid UTF-8, byte-level substring search coincides with
character-level search because UTF-8 is self-synchronising). -/
def listSubseq : List Char → List Char → Bool
  | hay, needle =>
    let rec startsAt : List Char → List Char → Bool
      | _, [] => true
      | [], _ :: _ => false
      | h :: hs, n :: ns => h == n && startsAt hs ns
    let rec scan : List Char → Bool
      | [] => startsAt [] needle
      | h :: hs => startsAt (h :: hs) needle || scan hs
    scan hay

/-- Rust str::contains for string needles. -/
def strContainsSub (hay needle : String) : Bool :=
  listSubseq hay.data needle.data

/-- BTreeMap::contains_key on the association-list model. -/
def mapContainsKey (m : List (String × Value)) (k : String) : Bool :=
  m.any (fun e => e.1 == k)

/-- The Eq arm of compare_new_values (src/lib.rs lines 560-572).  The source
function calls itself recursively, but every recursive call passes op = Eq,
and the Eq arm itself is non-recursive (in particular it has no List/List and
no Map/Map case: both fall into the catch-all and yield false).  Factoring the
Eq arm out therefore preserves the source behaviour exactly while keeping the
embedding reducible. -/
def compareEqArm (left right : Value) : Bool :=
  match left, right with
  | .null, .null => true
  | .null, _ => false
  | _, .null => false
  | .bool l, .bool r => l == r
  | .str l, .str r => l == r
  | .num l, .num r =>
    if l.is_nan || r.is_nan then false else l.feq r
  | _, _ => false

/-- compare_new_values (src/lib.rs lines 558-605), the comparison kernel.
Match arms appear in source order; recursive self-calls with op = Eq are
written as compareEqArm (see its docstring). -/
def compare_new_values (left right : Value) (op : Comparator) : Bool :=
  match op with
  | .Eq => compareEqArm left right
  | .Ne => !(compareEqArm left right)
  | .Contains =>
    match left, right with
    | .str l, .str r => strContainsSub l r
    | .list l, v => l.any (fun item => compareEqArm item v)
    | .map m, .str key => mapContainsKey m key
    | _, _ => false
  | .In =>
    match left, right with
    | v, .list l => l.any (fun item => compareEqArm v item)
    | .str s, .str haystack => strContainsSub haystack s
    | _, _ => false
  | .Gt | .Ge | .Lt | .Le =>
    match left, right with
    | .num l, .num r =>
      if l.is_nan || r.is_nan then false
      else
        match op with
        | .Gt => l.fgt r
        | .Ge => l.fge r
        | .Lt => l.flt r
        | .Le => l.fle r
        | _ => false
    | _, _ => false

/-- True when the value is the Number(NaN) literal (at the top level). -/
def Value.isNanNumber : Value → Bool
  | .num .nan => true
  | _ => false

/-- True when no NaN occurs anywhere inside the value. -/
def Value.noNaN : Value → Bool
  | .null => true
  | .bool _ => true
  | .str _ => true
  | .num f => !f.is_nan
  | .list [] => true
  | .list (x :: xs) => x.noNaN && (Value.list xs).noNaN
  | .map [] => true
  | .map ((_, v) :: rest) => v.noNaN && (Value.map rest).noNaN

/-- True for List and Map values. -/
def Value.isListOrMap : Value → Bool
  | .list _ => true
  | .map _ => true
  | _ => false

/-! ### ASCII case model

Rust char::to_lowercase and to_uppercase are modelled on the ASCII range,
which is the range the engine exercises (namespaces and function names in the
source and tests are ASCII). -/

/-- ASCII lower-casing of a single character. -/
def charToLower (c : Char) : Char :=
  match c with
  | 'A' => 'a' | 'B' => 'b' | 'C' => 'c' | 'D' => 'd' | 'E' => 'e' | 'F' => 'f'
  | 'G' => 'g' | 'H' => 'h' | 'I' => 'i' | 'J' => 'j' | 'K' => 'k' | 'L' => 'l'
  | 'M' => 'm' | 'N' => 'n' | 'O' => 'o' | 'P' => 'p' | 'Q' => 'q' | 'R' => 'r'
  | 'S' => 's' | 'T' => 't' | 'U' => 'u' | 'V' => 'v' | 'W' => 'w' | 'X' => 'x'
  | 'Y' => 'y' | 'Z' => 'z'
  | other => other

/-- ASCII upper-casing of a single character. -/
def charToUpper (c : Char) : Char :=
  match c with
  | 'a' => 'A' | 'b' => 'B' | 'c' => 'C' | 'd' => 'D' | 'e' => 'E' | 'f' => 'F'
  | 'g' => 'G' | 'h' => 'H' | 'i' => 'I' | 'j' => 'J' | 'k' => 'K' | 'l' => 'L'
  | 'm' => 'M' | 'n' => 'N' | 'o' => 'O' | 'p' => 'P' | 'q' => 'Q' | 'r' => 'R'
  | 's' => 'S' | 't' => 'T' | 'u' => 'U' | 'v' => 'V' | 'w' => 'W' | 'x' => 'X'
  | 'y' => 'Y' | 'z' => 'Z'
  | other => other

/-- Rust str::to_lowercase (ASCII model). -/
def strToLower (s : String) : String := ⟨s.data.map charToLower⟩

/-- Rust str::to_uppercase (ASCII model). -/
def strToUpper (s : String) : String := ⟨s.data.map charToUpper⟩

/-! ### Error types (src/lib.rs) -/

/-- EvalError (src/lib.rs lines 136-149). -/
inductive EvalError where
  | unknownAttribute (object field : String)
  | typeMismatch (expected got context : String)
  | invalidOperation (msg : String)
  | parseError (msg : String)
deriving DecidableEq

/-- ErrorKind (src/lib.rs lines 185-191). -/
inductive ErrorKind where
  | parseErrorKind
  | evaluationError
  | typeError
  | unknownAttributeKind
deriving DecidableEq

/-- HelError (src/lib.rs lines 176-183): message plus optional position. -/
structure HelError where
  message : String
  line : Option Nat
  column : Option Nat
  kind : ErrorKind
deriving DecidableEq

/-- HelError::parse_error. -/
def HelError.parse_error (message : String) : HelError :=
  ⟨message, none, none, .parseErrorKind⟩

/-- HelError::parse_error_at. -/
def HelError.parse_error_at (message : String) (line column : Nat) : HelError :=
  ⟨message, some line, some column, .parseErrorKind⟩

/-- HelError::eval_error. -/
def HelError.eval_error (message : String) : HelError :=
  ⟨message, none, none, .evaluationError⟩

/-- HelError::type_error. -/
def HelError.type_error (message : String) : HelError :=
  ⟨message, none, none, .typeError⟩

/-- HelError::unknown_attribute. -/
def HelError.unknown_attribute (message : String) : HelError :=
  ⟨message, none, none, .unknownAttributeKind⟩

/-- From<EvalError> for HelError (src/lib.rs lines 253-266).  The formatted
message texts follow the source format strings. -/
def HelError.fromEval : EvalError → HelError
  | .parseError msg => HelError.parse_error msg
  | .typeMismatch expected got context =>
    HelError.type_error
      ("Type mismatch in " ++ context ++ ": expected " ++ expected ++ ", got " ++ got)
  | .unknownAttribute object field =>
    HelError.unknown_attribute ("Unknown attribute: " ++ object ++ "." ++ field)
  | .invalidOperation msg => HelError.eval_error msg

/-- Debug rendering of a value, used only inside error message strings
(the Rust source uses the derived Debug formatter there).  Rendering of the
contents of nested collections is abbreviated; no claim inspects these
strings. -/
def valueDebug : Value → String
  | .null => "Null"
  | .bool b => "Bool(" ++ toString b ++ ")"
  | .str s => "String(" ++ s ++ ")"
  | .num .nan => "Number(NaN)"
  | .num (.q x) => "Number(" ++ toString x ++ ")"
  | .list _ => "List(..)"
  | .map _ => "Map(..)"

/-! ### Built-ins registry (src/builtins.rs) -/

/-- BuiltinFn (src/builtins.rs line 32). -/
def BFn := List Value → Except EvalError Value

/-- BuiltinsProvider (src/builtins.rs lines 42-50): a namespace together with
the function table returned by get_builtins.  The Rust field namespace is a
reserved word in Lean and is called nspace here. -/
structure BuiltinsProvider where
  nspace : String
  get_builtins : List (String × BFn)

/-- BuiltinsRegistry (src/builtins.rs lines 60-63): namespace to function
table.  The BTreeMaps are modelled as association lists with first-match
lookup, which coincides with map lookup because keys are unique. -/
structure BuiltinsRegistry where
  providers : List (String × List (String × BFn))

/-- BuiltinsRegistry::new. -/
def BuiltinsRegistry.new : BuiltinsRegistry := ⟨[]⟩

/-- BuiltinsRegistry::register (src/builtins.rs lines 76-87): lower-cases the
namespace, rejects duplicates, and stores the provider function table exactly
as supplied (function names are not normalised here). -/
def BuiltinsRegistry.register (r : BuiltinsRegistry) (p : BuiltinsProvider) :
    Except String BuiltinsRegistry :=
  let ns := strToLower p.nspace
  if (r.providers.lookup ns).isSome then
    .error ("Namespace '" ++ ns ++ "' is already registered")
  else
    .ok ⟨r.providers ++ [(ns, p.get_builtins)]⟩

/-- The lookup performed by both BuiltinsRegistry::call and
BuiltinsRegistry::has_function: lower-case the namespace and the function
name, find the provider table, then find the entry whose stored key equals
the lower-cased function name.  Returned as the full entry so that theorems
can speak about which stored binding was reached. -/
def BuiltinsRegistry.findEntry (r : BuiltinsRegistry) (ns fn : String) :
    Option (String × BFn) :=
  match r.providers.lookup (strToLower ns) with
  | none => none
  | some tbl => tbl.find? (fun e => e.1 == strToLower fn)

/-- BuiltinsRegistry::call (src/builtins.rs lines 98-109). -/
def BuiltinsRegistry.call (r : BuiltinsRegistry) (ns fn : String)
    (args : List Value) : Except EvalError Value :=
  match r.providers.lookup (strToLower ns) with
  | none => .error (.invalidOperation ("Unknown namespace: " ++ strToLower ns))
  | some tbl =>
    match tbl.find? (fun e => e.1 == strToLower fn) with
    | none =>
      .error (.invalidOperation
        ("Unknown function: " ++ strToLower ns ++ "." ++ strToLower fn))
    | some e => e.2 args

/-- BuiltinsRegistry::has_function (src/builtins.rs lines 112-120). -/
def BuiltinsRegistry.has_function (r : BuiltinsRegistry) (ns fn : String) : Bool :=
  (r.findEntry ns fn).isSome

/-- values_equal (src/builtins.rs lines 248-259), the equality helper used by
core.contains.  The source compares lists by equal length plus pointwise
equality over zip, which is written here as the equivalent structural
recursion.  There is no Map/Map arm in the source. -/
def values_equal : Value → Value → Bool
  | .null, .null => true
  | .bool a, .bool b => a == b
  | .str a, .str b => a == b
  | .num a, .num b => a.feq b
  | .list [], .list [] => true
  | .list (x :: xs), .list (y :: ys) =>
    values_equal x y && values_equal (.list xs) (.list ys)
  | _, _ => false
termination_by a b => sizeOf a + sizeOf b
decreasing_by all_goals (simp; omega)

/-- The core.len built-in (src/builtins.rs lines 158-175).  On strings the
source returns s.len(), the number of UTF-8 bytes. -/
def core_len : BFn := fun args =>
  match args with
  | [v] =>
    match v with
    | .list l => .ok (.num (.q (l.length : ℚ)))
    | .str s => .ok (.num (.q (s.utf8ByteSize : ℚ)))
    | other => .error (.typeMismatch "List or String" (valueDebug other) "core.len")
  | _ => .error (.invalidOperation "core.len expects 1 argument")

/-- The core.contains built-in (src/builtins.rs lines 178-203). -/
def core_contains : BFn := fun args =>
  match args with
  | [a, b] =>
    match a with
    | .list l => .ok (.bool (l.any (fun item => values_equal item b)))
    | .str haystack =>
      match b with
      | .str needle => .ok (.bool (strContainsSub haystack needle))
      | _ => .ok (.bool false)
    | other => .error (.typeMismatch "List or String" (valueDebug other) "core.contains")
  | _ => .error (.invalidOperation "core.contains expects 2 arguments")

/-- The core.upper built-in (src/builtins.rs lines 206-222). -/
def core_upper : BFn := fun args =>
  match args with
  | [v] =>
    match v with
    | .str s => .ok (.str (strToUpper s))
    | other => .error (.typeMismatch "String" (valueDebug other) "core.upper")
  | _ => .error (.invalidOperation "core.upper expects 1 argument")

/-- The core.lower built-in (src/builtins.rs lines 225-241). -/
def core_lower : BFn := fun args =>
  match args with
  | [v] =>
    match v with
    | .str s => .ok (.str (strToLower s))
    | other => .error (.typeMismatch "String" (valueDebug other) "core.lower")
  | _ => .error (.invalidOperation "core.lower expects 1 argument")

/-- CoreBuiltinsProvider (src/builtins.rs lines 147-245).  The table is
listed in BTreeMap iteration order (sorted keys). -/
def CoreBuiltinsProvider : BuiltinsProvider :=
  ⟨"core",
    [("contains", core_contains), ("len", core_len),
     ("lower", core_lower), ("upper", core_upper)]⟩

/-- A registry holding exactly the core provider. -/
def coreRegistry : BuiltinsRegistry :=
  (BuiltinsRegistry.new.register CoreBuiltinsProvider).toOption.getD BuiltinsRegistry.new

/-! ### AST and evaluator (src/lib.rs) -/

/-- AstNode (src/lib.rs lines 23-55).  Number carries the parsed u64 (widened
to a float on evaluation); Float carries an f64 literal. -/
inductive Ast where
  | bool (b : Bool)
  | str (s : String)
  | num (n : Nat)
  | float (f : HF)
  | ident (name : String)
  | attr (object field : String)
  | cmp (left : Ast) (op : Comparator) (right : Ast)
  | and (nodes : List Ast)
  | or (nodes : List Ast)
  | listLit (elements : List Ast)
  | mapLit (entries : List (String × Ast))
  | call (ns : Option String) (name : String) (args : List Ast)

/-- EvalContext (src/lib.rs lines 94-99).  The resolver trait object is a
function from (object, field) to an optional Value; the BTreeMap of variable
bindings is modelled by its lookup function. -/
structure EvalContext where
  resolver : String → String → Option Value
  builtins : Option BuiltinsRegistry
  vars : String → Option Value

/-- EvalContext::new. -/
def EvalContext.new (resolver : String → String → Option Value) : EvalContext :=
  { resolver := resolver, builtins := none, vars := fun _ => none }

/-- EvalContext::with_builtins. -/
def EvalContext.with_builtins (resolver : String → String → Option Value)
    (builtins : BuiltinsRegistry) : EvalContext :=
  { resolver := resolver, builtins := some builtins, vars := fun _ => none }

/-- EvalContext::with_variable: BTreeMap::insert on the function model. -/
def EvalContext.with_variable (c : EvalContext) (name : String) (v : Value) :
    EvalContext :=
  { c with vars := fun m => if m == name then some v else c.vars m }

/-- EvalContext::get_variable. -/
def EvalContext.get_variable (c : EvalContext) (name : String) : Option Value :=
  c.vars name

/-- BTreeMap::insert for the Value map model: sorted association list with
key replacement. -/
def mapInsert : List (String × Value) → String → Value → List (String × Value)
  | [], k, v => [(k, v)]
  | (k0, v0) :: rest, k, v =>
    if k < k0 then (k, v) :: (k0, v0) :: rest
    else if k == k0 then (k, v) :: rest
    else (k0, v0) :: mapInsert rest k v

/-- Phase tag used only in the termination measure of the evaluator below. -/
def astPhase : Nat := 0

mutual

/-- evaluate_ast_with_context (src/lib.rs lines 439-474).  Bool, And, Or and
Comparison are evaluated directly; any other node is materialised as a Value
and then required to be a Bool, otherwise a TypeMismatch error is raised. -/
def evaluate_ast_with_context (ast : Ast) (ctx : EvalContext) :
    Except EvalError Bool :=
  match ast with
  | .bool b => .ok b
  | .and nodes => evalAndNodes nodes ctx
  | .or nodes => evalOrNodes nodes ctx
  | .cmp left op right => evaluate_comparison_with_context left op right ctx
  | other =>
    match eval_node_to_value_with_context other ctx with
    | .error e => .error e
    | .ok (.bool b) => .ok b
    | .ok v => .error (.typeMismatch "boolean" (valueDebug v) "boolean expression context")
termination_by (sizeOf ast, 2)
decreasing_by all_goals (first | decreasing_tactic | (cases op <;> decreasing_tactic))

/-- The And loop of evaluate_ast_with_context (src/lib.rs lines 442-449):
left to right, return false on the first false child, true when the list is
exhausted; errors propagate from the child being evaluated. -/
def evalAndNodes (nodes : List Ast) (ctx : EvalContext) : Except EvalError Bool :=
  match nodes with
  | [] => .ok true
  | node :: rest =>
    match evaluate_ast_with_context node ctx with
    | .error e => .error e
    | .ok false => .ok false
    | .ok true => evalAndNodes rest ctx
termination_by (sizeOf nodes, 0)

/-- The Or loop of evaluate_ast_with_context (src/lib.rs lines 450-457). -/
def evalOrNodes (nodes : List Ast) (ctx : EvalContext) : Except EvalError Bool :=
  match nodes with
  | [] => .ok false
  | node :: rest =>
    match evaluate_ast_with_context node ctx with
    | .error e => .error e
    | .ok true => .ok true
    | .ok false => evalOrNodes rest ctx
termination_by (sizeOf nodes, 0)

/-- evaluate_comparison_with_context (src/lib.rs lines 476-485). -/
def evaluate_comparison_with_context (left : Ast) (op : Comparator)
    (right : Ast) (ctx : EvalContext) : Except EvalError Bool :=
  match eval_node_to_value_with_context left ctx with
  | .error e => .error e
  | .ok left_val =>
    match eval_node_to_value_with_context right ctx with
    | .error e => .error e
    | .ok right_val => .ok (compare_new_values left_val right_val op)
termination_by (sizeOf left + sizeOf right + 1, 0)

/-- eval_node_to_value_with_context (src/lib.rs lines 487-556).  The source
arm for Comparison | And | Or delegates to evaluate_ast_with_context and
wraps the boolean; here that delegation is written with one step of
evaluate_ast_with_context unfolded (its dispatch to the comparison helper and
the And/Or loops), which is the same computation.  The source ends with a
dead catch-all arm returning Null: every AstNode variant is already covered
above it. -/
def eval_node_to_value_with_context (node : Ast) (ctx : EvalContext) :
    Except EvalError Value :=
  match node with
  | .bool b => .ok (.bool b)
  | .str s => .ok (.str s)
  | .num n => .ok (.num (.q (n : ℚ)))
  | .float f => .ok (.num f)
  | .ident s =>
    match ctx.get_variable s with
    | some value => .ok value
    | none => .ok (.str s)
  | .attr object field => .ok ((ctx.resolver object field).getD .null)
  | .listLit elements =>
    match evalValueList elements ctx with
    | .error e => .error e
    | .ok values => .ok (.list values)
  | .mapLit entries => evalMapEntries entries [] ctx
  | .call ns name args =>
    match evalValueList args ctx with
    | .error e => .error e
    | .ok arg_values =>
      match ctx.builtins with
      | some builtins => builtins.call (ns.getD "core") name arg_values
      | none =>
        .error (.invalidOperation
          ("Function calls not supported without built-ins registry: "
            ++ ns.getD "core" ++ "." ++ name))
  | .cmp left op right =>
    match evaluate_comparison_with_context left op right ctx with
    | .error e => .error e
    | .ok b => .ok (.bool b)
  | .and nodes =>
    match evalAndNodes nodes ctx with
    | .error e => .error e
    | .ok b => .ok (.bool b)
  | .or nodes =>
    match evalOrNodes nodes ctx with
    | .error e => .error e
    | .ok b => .ok (.bool b)
termination_by (sizeOf node, 1)
decreasing_by all_goals (first | decreasing_tactic | (cases op <;> decreasing_tactic))

/-- Argument materialisation loop shared by ListLiteral and FunctionCall
(src/lib.rs lines 509-515 and 529-534). -/
def evalValueList (elements : List Ast) (ctx : EvalContext) :
    Except EvalError (List Value) :=
  match elements with
  | [] => .ok []
  | e :: rest =>
    match eval_node_to_value_with_context e ctx with
    | .error err => .error err
    | .ok v =>
      match evalValueList rest ctx with
      | .error err => .error err
      | .ok vs => .ok (v :: vs)
termination_by (sizeOf elements, 0)

/-- MapLiteral materialisation (src/lib.rs lines 516-523): evaluate each
entry value in order, inserting into the BTreeMap. -/
def evalMapEntries (entries : List (String × Ast))
    (acc : List (String × Value)) (ctx : EvalContext) :
    Except EvalError Value :=
  match entries with
  | [] => .ok (.map acc)
  | (key, valueNode) :: rest =>
    match eval_node_to_value_with_context valueNode ctx with
    | .error e => .error e
    | .ok v => evalMapEntries rest (mapInsert acc key v) ctx
termination_by (sizeOf entries, 0)

end


/-! ### Trace capture (src/trace.rs) -/

/-- Rendering of a float in strings (Rust f64 Display).  The exact decimal
formatting of Rust is approximated by the rational rendering; no claim
inspects these strings beyond whether they contain a dot character, and no
claim under study records a float-literal atom. -/
def hfToString : HF → String
  | .nan => "NaN"
  | .q x => toString x

mutual

/-- value_to_string (src/trace.rs lines 191-209). -/
def value_to_string : Value → String
  | .null => "null"
  | .bool b => toString b
  | .str s => s
  | .num f => hfToString f
  | .list items => "[" ++ joinedValues items ++ "]"
  | .map entries => "\x7b" ++ joinedEntries entries ++ "\x7d"
termination_by v => (sizeOf v, 1)

/-- Comma-joined rendering of list items (Vec::join in the source). -/
def joinedValues : List Value → String
  | [] => ""
  | [v] => value_to_string v
  | v :: rest => value_to_string v ++ ", " ++ joinedValues rest
termination_by items => (sizeOf items, 0)

/-- Comma-joined rendering of map entries. -/
def joinedEntries : List (String × Value) → String
  | [] => ""
  | [(k, v)] => k ++ ": " ++ value_to_string v
  | (k, v) :: rest => k ++ ": " ++ value_to_string v ++ ", " ++ joinedEntries rest
termination_by entries => (sizeOf entries, 0)

end

/-- node_to_string (src/trace.rs lines 167-188).  Comparison, And and Or
nodes fall into the catch-all arm and render as a question mark. -/
def node_to_string : Ast → String
  | .bool b => toString b
  | .str s => "\"" ++ s ++ "\""
  | .num n => toString n
  | .float f => hfToString f
  | .ident s => s
  | .attr object field => object ++ "." ++ field
  | .listLit _ => "[...]"
  | .mapLit _ => "\x7b...\x7d"
  | .call (some ns) name _ => ns ++ "." ++ name ++ "(...)"
  | .call none name _ => name ++ "(...)"
  | _ => "?"

/-- AtomTrace (src/trace.rs lines 10-28). -/
structure AtomTrace where
  left : String
  op : Comparator
  right : String
  resolved_left_value : Option String
  resolved_right_value : Option String
  atom_result : Bool
deriving DecidableEq

/-- EvalTrace (src/trace.rs lines 32-41).  The facts_used_set HashSet is
modelled as a duplicate-free list; its order is irrelevant because
facts_used sorts it. -/
structure EvalTrace where
  result : Bool
  atoms : List AtomTrace
  facts_used_set : List String
deriving DecidableEq

/-- EvalTrace::new. -/
def EvalTrace.new : EvalTrace := ⟨false, [], []⟩

/-- Rust str::contains with a char needle. -/
def strContainsChar (s : String) (c : Char) : Bool :=
  s.data.any (fun x => x == c)

/-- HashSet::insert on the duplicate-free list model. -/
def hashSetInsert (x : String) (s : List String) : List String :=
  if x ∈ s then s else s ++ [x]

/-- EvalTrace::add_atom (src/trace.rs lines 54-61): record the left text in
the facts set when it contains a dot, then push the atom. -/
def EvalTrace.add_atom (t : EvalTrace) (atom : AtomTrace) : EvalTrace :=
  { t with
    facts_used_set :=
      if strContainsChar atom.left '.' then hashSetInsert atom.left t.facts_used_set
      else t.facts_used_set,
    atoms := t.atoms ++ [atom] }

/-- EvalTrace::set_result. -/
def EvalTrace.set_result (t : EvalTrace) (r : Bool) : EvalTrace :=
  { t with result := r }

/-- EvalTrace::facts_used (src/trace.rs lines 69-73): collect the set and
sort it (Vec::sort, ascending, stable). -/
def EvalTrace.facts_used (t : EvalTrace) : List String :=
  t.facts_used_set.insertionSort (fun a b => a ≤ b)

/-- evaluate_comparison_with_trace (src/trace.rs lines 137-164): operands are
materialised with the plain value evaluator, the comparison is performed with
compare_new_values, and one atom is recorded. -/
def evaluate_comparison_with_trace (left : Ast) (op : Comparator) (right : Ast)
    (ctx : EvalContext) (trace : EvalTrace) : Except EvalError (Bool × EvalTrace) :=
  match eval_node_to_value_with_context left ctx with
  | .error e => .error e
  | .ok left_val =>
    match eval_node_to_value_with_context right ctx with
    | .error e => .error e
    | .ok right_val =>
      let result := compare_new_values left_val right_val op
      let atom : AtomTrace :=
        ⟨node_to_string left, op, node_to_string right,
         some (value_to_string left_val), some (value_to_string right_val), result⟩
      .ok (result, trace.add_atom atom)

mutual

/-- evaluate_ast_with_trace (src/trace.rs lines 106-134).  Note the catch-all
arm: any node that is not Bool, And, Or or Comparison evaluates to false
without error, unlike the plain evaluator. -/
def evaluate_ast_with_trace (ast : Ast) (ctx : EvalContext) (trace : EvalTrace) :
    Except EvalError (Bool × EvalTrace) :=
  match ast with
  | .bool b => .ok (b, trace)
  | .and nodes => traceAndNodes nodes ctx trace
  | .or nodes => traceOrNodes nodes ctx trace
  | .cmp left op right => evaluate_comparison_with_trace left op right ctx trace
  | _ => .ok (false, trace)
termination_by sizeOf ast

/-- The And loop of evaluate_ast_with_trace. -/
def traceAndNodes (nodes : List Ast) (ctx : EvalContext) (trace : EvalTrace) :
    Except EvalError (Bool × EvalTrace) :=
  match nodes with
  | [] => .ok (true, trace)
  | node :: rest =>
    match evaluate_ast_with_trace node ctx trace with
    | .error e => .error e
    | .ok (false, trace1) => .ok (false, trace1)
    | .ok (true, trace1) => traceAndNodes rest ctx trace1
termination_by sizeOf nodes

/-- The Or loop of evaluate_ast_with_trace. -/
def traceOrNodes (nodes : List Ast) (ctx : EvalContext) (trace : EvalTrace) :
    Except EvalError (Bool × EvalTrace) :=
  match nodes with
  | [] => .ok (false, trace)
  | node :: rest =>
    match evaluate_ast_with_trace node ctx trace with
    | .error e => .error e
    | .ok (true, trace1) => .ok (true, trace1)
    | .ok (false, trace1) => traceOrNodes rest ctx trace1
termination_by sizeOf nodes

end

/-- The AST-level part of evaluate_with_trace (src/trace.rs lines 86-103):
build the context from the resolver and the optional registry, evaluate with
a fresh trace, then store the final result in the trace. -/
def evaluate_with_trace_ast (ast : Ast) (resolver : String → String → Option Value)
    (builtins : Option BuiltinsRegistry) : Except EvalError EvalTrace :=
  let ctx := match builtins with
    | some b => EvalContext.with_builtins resolver b
    | none => EvalContext.new resolver
  match evaluate_ast_with_trace ast ctx EvalTrace.new with
  | .error e => .error e
  | .ok (result, trace) => .ok (trace.set_result result)

/-! ### Scripts (src/lib.rs lines 762-906) -/

/-- Script (src/lib.rs lines 763-768). -/
structure Script where
  bindings : List (String × Ast)
  final_expr : Ast

/-- FactsEvalContext (src/lib.rs lines 687-732): a flat map from dotted fact
keys to values, modelled by its lookup function. -/
def FactsEvalContext := String → Option Value

/-- The HelResolver implementation of FactsEvalContext: look up
object.field. -/
def factsResolver (facts : FactsEvalContext) : String → String → Option Value :=
  fun object field => facts (object ++ "." ++ field)

/-- The binding loop of evaluate_script (src/lib.rs lines 895-901): evaluate
each binding in order in the current context and extend the context. -/
def runBindings : List (String × Ast) → EvalContext → Except EvalError EvalContext
  | [], ctx => .ok ctx
  | (name, expr) :: rest, ctx =>
    match eval_node_to_value_with_context expr ctx with
    | .error e => .error e
    | .ok value => runBindings rest (ctx.with_variable name value)

/-- The post-parse part of evaluate_script (src/lib.rs lines 888-906):
evaluate the bindings starting from a context holding only the facts
resolver (note: no built-ins registry is ever attached), then evaluate the
final expression.  Errors are converted to HelError as in the source. -/
def evaluate_script_ast (s : Script) (context : FactsEvalContext) :
    Except HelError Bool :=
  match runBindings s.bindings (EvalContext.new (factsResolver context)) with
  | .error e => .error (HelError.fromEval e)
  | .ok ctx =>
    match evaluate_ast_with_context s.final_expr ctx with
    | .error e => .error (HelError.fromEval e)
    | .ok b => .ok b

/-- The post-parse part of evaluate (src/lib.rs lines 751-755). -/
def evaluateParsed (ast : Ast) (context : FactsEvalContext) :
    Except HelError Bool :=
  match evaluate_ast_with_context ast (EvalContext.new (factsResolver context)) with
  | .error e => .error (HelError.fromEval e)
  | .ok b => .ok b

/-! ### Package dependency resolution (src/schema/package.rs)

The registry is abstracted to the dependency graph that resolve_all walks: a
package name maps to the list of dependency names from its manifest
(BTreeMap keys, hence an ordered list).  load_package is a lookup in this
map; its file-system search, caching and manifest checks are outside the
resolution order being verified, and a package that cannot be loaded is a
lookup miss. -/

/-- The loadable-package map: name to dependency names. -/
abbrev Graph := List (String × List String)

/-- load_package viewed as a lookup of the manifest dependency list. -/
def lookupG (g : Graph) (name : String) : Option (List String) :=
  g.lookup name

/-- PackageError restricted to the variants resolve_all can produce.
PackageNotFound carries the searched paths in the source; here only the
name.  outOfFuel is an artifact of the embedding of recursion: the source
recursion needs no fuel, and the fixed fuel used by resolve_all below is
shown sufficient in the theorems. -/
inductive PackageError where
  | circularDependency (package : String)
  | packageNotFound (name : String)
  | outOfFuel
deriving DecidableEq

mutual

/-- resolve_recursive (src/schema/package.rs lines 217-250).  The resolved
vector and the visiting set are threaded explicitly; the visiting HashSet is
a list (its elements are distinct because insertion happens only after the
membership check). -/
def resolveRec (g : Graph) :
    Nat → String → List String → List String →
    Except PackageError (List String × List String)
  | 0, _, _, _ => .error .outOfFuel
  | fuel + 1, package_name, resolved, visiting =>
    if package_name ∈ visiting then
      .error (.circularDependency package_name)
    else if package_name ∈ resolved then
      .ok (resolved, visiting)
    else
      let visiting1 := package_name :: visiting
      match lookupG g package_name with
      | none => .error (.packageNotFound package_name)
      | some deps =>
        match resolveDeps g fuel deps resolved visiting1 with
        | .error e => .error e
        | .ok (res1, vis1) => .ok (res1 ++ [package_name], vis1.erase package_name)
termination_by fuel _ _ _ => (fuel, 0)

/-- The dependency loop of resolve_recursive (src/schema/package.rs lines
241-244). -/
def resolveDeps (g : Graph) (fuel : Nat) :
    List String → List String → List String →
    Except PackageError (List String × List String)
  | [], resolved, visiting => .ok (resolved, visiting)
  | d :: ds, resolved, visiting =>
    match resolveRec g fuel d resolved visiting with
    | .error e => .error e
    | .ok (res1, vis1) => resolveDeps g fuel ds res1 vis1
termination_by deps _ _ => (fuel, deps.length + 1)

end

/-- resolve_all (src/schema/package.rs lines 208-215).  The fuel bound
g.length + 1 dominates the recursion depth: the visiting set grows by one
distinct loadable name per nesting level. -/
def resolve_all (g : Graph) (root_package : String) :
    Except PackageError (List String) :=
  match resolveRec g (g.length + 1) root_package [] [] with
  | .error e => .error e
  | .ok (resolved, _) => .ok resolved


/-! ### Rule-text parser

Modelled from the spec: the pest grammar file hel.pest is referenced by the
source (the grammar attribute on HelParser in src/lib.rs) but is not among
the sources under review.  The tokeniser and recursive-descent parser below
follow the informal EBNF of spec section 4.1 and the lexical rules of spec
section 6.  The theorems use this parser only through concrete evaluations.
Error positions are character offsets into the input, converted to 1-based
line and column as pest reports them. -/

/-- Opening brace character. -/
def lbraceChar : Char := Char.ofNat 123

/-- Closing brace character. -/
def rbraceChar : Char := Char.ofNat 125

/-- Tokens of the rule grammar. -/
inductive Tok where
  | lparen | rparen | lbrack | rbrack | lcurly | rcurly
  | comma | colon | dot
  | opEq | opNe | opGe | opGt | opLe | opLt
  | kwAnd | kwOr | kwContains | kwIn
  | litTrue | litFalse
  | tstr (s : String)
  | tint (n : Nat)
  | tfloat (x : ℚ)
  | tident (s : String)
deriving DecidableEq

/-- Identifier start characters: letters and underscore. -/
def isIdentStart (c : Char) : Bool := c.isAlpha || c == '_'

/-- Identifier continuation characters. -/
def isIdentCh (c : Char) : Bool := c.isAlphanum || c == '_'

/-- Hexadecimal digit test. -/
def isHexDigitCh (c : Char) : Bool :=
  c.isDigit || (('a' ≤ c && c ≤ 'f') || ('A' ≤ c && c ≤ 'F'))

/-- Decimal digit list to natural number. -/
def digitsToNat (ds : List Char) : Nat :=
  ds.foldl (fun acc c => acc * 10 + (c.toNat - 48)) 0

/-- Hexadecimal digit value. -/
def hexVal (c : Char) : Nat :=
  if c.isDigit then c.toNat - 48
  else if 'a' ≤ c && c ≤ 'f' then c.toNat - 87
  else c.toNat - 55

/-- Hexadecimal digit list to natural number. -/
def hexToNat (ds : List Char) : Nat :=
  ds.foldl (fun acc c => acc * 16 + hexVal c) 0

/-- Keyword recognition; anything else is an identifier. -/
def keywordTok (s : String) : Tok :=
  if s == "AND" then .kwAnd
  else if s == "OR" then .kwOr
  else if s == "CONTAINS" then .kwContains
  else if s == "IN" then .kwIn
  else if s == "true" then .litTrue
  else if s == "false" then .litFalse
  else .tident s

/-- Build the rational value of a float literal from its integer digits,
fraction digits, and signed decimal exponent. -/
def floatValue (intPart fracPart : List Char) (exp : Int) : ℚ :=
  let base : ℚ :=
    (digitsToNat intPart : ℚ) + (digitsToNat fracPart : ℚ) / ((10 : ℚ) ^ fracPart.length)
  base * ((10 : ℚ) ^ exp)

/-- Parse error: message and character offset. -/
abbrev PErr := String × Nat

/-- Tokens paired with their character offsets. -/
abbrev Toks := List (Tok × Nat)

/-- Prepend a token to the result of tokenising the remaining input. -/
def consTok (t : Tok) (p : Nat) :
    Except PErr Toks → Except PErr Toks
  | .ok ts => .ok ((t, p) :: ts)
  | .error e => .error e

/-- The tokeniser.  Fuel is structural; the input length plus one is always
sufficient because every step consumes at least one character. -/
def tokenize : Nat → List Char → Nat → Except PErr Toks
  | 0, _, pos => .error ("tokenizer fuel exhausted", pos)
  | _fuel + 1, [], _ => .ok []
  | fuel + 1, c :: cs, pos =>
    if c.isWhitespace then tokenize fuel cs (pos + 1)
    else if c == '(' then consTok .lparen pos (tokenize fuel cs (pos + 1))
    else if c == ')' then consTok .rparen pos (tokenize fuel cs (pos + 1))
    else if c == '[' then consTok .lbrack pos (tokenize fuel cs (pos + 1))
    else if c == ']' then consTok .rbrack pos (tokenize fuel cs (pos + 1))
    else if c == lbraceChar then consTok .lcurly pos (tokenize fuel cs (pos + 1))
    else if c == rbraceChar then consTok .rcurly pos (tokenize fuel cs (pos + 1))
    else if c == ',' then consTok .comma pos (tokenize fuel cs (pos + 1))
    else if c == ':' then consTok .colon pos (tokenize fuel cs (pos + 1))
    else if c == '.' then consTok .dot pos (tokenize fuel cs (pos + 1))
    else if c == '=' then
      match cs with
      | '=' :: cs1 => consTok .opEq pos (tokenize fuel cs1 (pos + 2))
      | _ => .error ("expected ==", pos)
    else if c == '!' then
      match cs with
      | '=' :: cs1 => consTok .opNe pos (tokenize fuel cs1 (pos + 2))
      | _ => .error ("expected !=", pos)
    else if c == '>' then
      match cs with
      | '=' :: cs1 => consTok .opGe pos (tokenize fuel cs1 (pos + 2))
      | _ => consTok .opGt pos (tokenize fuel cs (pos + 1))
    else if c == '<' then
      match cs with
      | '=' :: cs1 => consTok .opLe pos (tokenize fuel cs1 (pos + 2))
      | _ => consTok .opLt pos (tokenize fuel cs (pos + 1))
    else if c == '"' then
      let body := cs.takeWhile (fun x => !(x == '"'))
      if body.length == cs.length then .error ("unterminated string literal", pos)
      else
        consTok (.tstr ⟨body⟩) pos
          (tokenize fuel (cs.drop (body.length + 1)) (pos + body.length + 2))
    else if c.isDigit then
      if c == '0' && (cs.head? == some 'x' || cs.head? == some 'X') then
        let hexits := (cs.drop 1).takeWhile isHexDigitCh
        if hexits.isEmpty then .error ("invalid hex literal", pos)
        else
          consTok (.tint (hexToNat hexits)) pos
            (tokenize fuel (cs.drop (1 + hexits.length)) (pos + 2 + hexits.length))
      else
        let intPart := (c :: cs).takeWhile Char.isDigit
        let after := (c :: cs).drop intPart.length
        match after with
        | '.' :: d :: _ =>
          if d.isDigit then
            let fracPart := (after.drop 1).takeWhile Char.isDigit
            let after2 := after.drop (1 + fracPart.length)
            let consumed := intPart.length + 1 + fracPart.length
            match after2 with
            | e :: rest2 =>
              if e == 'e' || e == 'E' then
                let (sign, rest3, signLen) :=
                  match rest2 with
                  | '+' :: r => ((1 : Int), r, 1)
                  | '-' :: r => ((-1 : Int), r, 1)
                  | r => ((1 : Int), r, 0)
                let expDigits := rest3.takeWhile Char.isDigit
                if expDigits.isEmpty then
                  consTok (.tfloat (floatValue intPart fracPart 0)) pos
                    (tokenize fuel after2 (pos + consumed))
                else
                  consTok
                    (.tfloat (floatValue intPart fracPart (sign * (digitsToNat expDigits : Int)))) pos
                    (tokenize fuel (rest3.drop expDigits.length)
                      (pos + consumed + 1 + signLen + expDigits.length))
              else
                consTok (.tfloat (floatValue intPart fracPart 0)) pos
                  (tokenize fuel after2 (pos + consumed))
            | [] =>
              consTok (.tfloat (floatValue intPart fracPart 0)) pos
                (tokenize fuel after2 (pos + consumed))
          else
            consTok (.tint (digitsToNat intPart)) pos
              (tokenize fuel after (pos + intPart.length))
        | _ =>
          consTok (.tint (digitsToNat intPart)) pos
            (tokenize fuel after (pos + intPart.length))
    else if isIdentStart c then
      let name := (c :: cs).takeWhile isIdentCh
      consTok (keywordTok ⟨name⟩) pos
        (tokenize fuel ((c :: cs).drop name.length) (pos + name.length))
    else .error ("unexpected character", pos)
termination_by structural fuel _ _ => fuel

/-- Comparison operator tokens. -/
def cmpOfTok : Tok → Option Comparator
  | .opEq => some .Eq
  | .opNe => some .Ne
  | .opGt => some .Gt
  | .opGe => some .Ge
  | .opLt => some .Lt
  | .opLe => some .Le
  | .kwContains => some .Contains
  | .kwIn => some .In
  | _ => none

mutual

/-- condition := logical_or. -/
def parseCondition : Nat → Nat → Toks → Except PErr (Ast × Toks)
  | 0, endPos, _ => .error ("parser fuel exhausted", endPos)
  | fuel + 1, endPos, ts => parseOr fuel endPos ts
termination_by structural fuel => fuel

/-- logical_or := logical_and (OR logical_and)*.  A single operand stays
itself; multiple operands build an Or node. -/
def parseOr : Nat → Nat → Toks → Except PErr (Ast × Toks)
  | 0, endPos, _ => .error ("parser fuel exhausted", endPos)
  | fuel + 1, endPos, ts =>
    match parseAnd fuel endPos ts with
    | .error e => .error e
    | .ok (a, ts1) =>
      match parseOrRest fuel endPos ts1 with
      | .error e => .error e
      | .ok ([], ts2) => .ok (a, ts2)
      | .ok (bs, ts2) => .ok (.or (a :: bs), ts2)
termination_by structural fuel => fuel

/-- The (OR logical_and)* loop. -/
def parseOrRest : Nat → Nat → Toks → Except PErr (List Ast × Toks)
  | 0, endPos, _ => .error ("parser fuel exhausted", endPos)
  | fuel + 1, endPos, ts =>
    match ts with
    | (.kwOr, _) :: rest =>
      match parseAnd fuel endPos rest with
      | .error e => .error e
      | .ok (b, ts1) =>
        match parseOrRest fuel endPos ts1 with
        | .error e => .error e
        | .ok (bs, ts2) => .ok (b :: bs, ts2)
    | _ => .ok ([], ts)
termination_by structural fuel => fuel

/-- logical_and := comparison (AND comparison)*. -/
def parseAnd : Nat → Nat → Toks → Except PErr (Ast × Toks)
  | 0, endPos, _ => .error ("parser fuel exhausted", endPos)
  | fuel + 1, endPos, ts =>
    match parseComparison fuel endPos ts with
    | .error e => .error e
    | .ok (a, ts1) =>
      match parseAndRest fuel endPos ts1 with
      | .error e => .error e
      | .ok ([], ts2) => .ok (a, ts2)
      | .ok (bs, ts2) => .ok (.and (a :: bs), ts2)
termination_by structural fuel => fuel

/-- The (AND comparison)* loop. -/
def parseAndRest : Nat → Nat → Toks → Except PErr (List Ast × Toks)
  | 0, endPos, _ => .error ("parser fuel exhausted", endPos)
  | fuel + 1, endPos, ts =>
    match ts with
    | (.kwAnd, _) :: rest =>
      match parseComparison fuel endPos rest with
      | .error e => .error e
      | .ok (b, ts1) =>
        match parseAndRest fuel endPos ts1 with
        | .error e => .error e
        | .ok (bs, ts2) => .ok (b :: bs, ts2)
    | _ => .ok ([], ts)
termination_by structural fuel => fuel

/-- comparison := term (cmp_op term)?. -/
def parseComparison : Nat → Nat → Toks → Except PErr (Ast × Toks)
  | 0, endPos, _ => .error ("parser fuel exhausted", endPos)
  | fuel + 1, endPos, ts =>
    match parseTerm fuel endPos ts with
    | .error e => .error e
    | .ok (l, ts1) =>
      match ts1 with
      | (tok, _) :: rest =>
        match cmpOfTok tok with
        | some op =>
          match parseTerm fuel endPos rest with
          | .error e => .error e
          | .ok (r, ts2) => .ok (.cmp l op r, ts2)
        | none => .ok (l, ts1)
      | [] => .ok (l, ts1)
termination_by structural fuel => fuel

/-- term := literal, attribute, function call, identifier or parenthesised
condition. -/
def parseTerm : Nat → Nat → Toks → Except PErr (Ast × Toks)
  | 0, endPos, _ => .error ("parser fuel exhausted", endPos)
  | fuel + 1, endPos, ts =>
    match ts with
    | (.tint n, _) :: rest => .ok (.num n, rest)
    | (.tfloat x, _) :: rest => .ok (.float (.q x), rest)
    | (.tstr s, _) :: rest => .ok (.str s, rest)
    | (.litTrue, _) :: rest => .ok (.bool true, rest)
    | (.litFalse, _) :: rest => .ok (.bool false, rest)
    | (.tident a, _) :: (.dot, _) :: (.tident b, _) :: (.lparen, _) :: rest =>
      match parseCallArgs fuel endPos rest with
      | .error e => .error e
      | .ok (args, ts1) => .ok (.call (some a) b args, ts1)
    | (.tident a, _) :: (.dot, _) :: (.tident b, _) :: rest => .ok (.attr a b, rest)
    | (.tident a, _) :: (.lparen, _) :: rest =>
      match parseCallArgs fuel endPos rest with
      | .error e => .error e
      | .ok (args, ts1) => .ok (.call none a args, ts1)
    | (.tident a, _) :: rest => .ok (.ident a, rest)
    | (.lparen, _) :: rest =>
      match parseCondition fuel endPos rest with
      | .error e => .error e
      | .ok (c, ts1) =>
        match ts1 with
        | (.rparen, _) :: ts2 => .ok (c, ts2)
        | (_, p) :: _ => .error ("expected closing parenthesis", p)
        | [] => .error ("expected closing parenthesis", endPos)
    | (.lbrack, _) :: rest =>
      match rest with
      | (.rbrack, _) :: ts1 => .ok (.listLit [], ts1)
      | _ =>
        match parseTermList fuel endPos rest with
        | .error e => .error e
        | .ok (items, ts1) =>
          match ts1 with
          | (.rbrack, _) :: ts2 => .ok (.listLit items, ts2)
          | (_, p) :: _ => .error ("expected closing bracket", p)
          | [] => .error ("expected closing bracket", endPos)
    | (.lcurly, _) :: rest =>
      match rest with
      | (.rcurly, _) :: ts1 => .ok (.mapLit [], ts1)
      | _ =>
        match parseMapEntryList fuel endPos rest with
        | .error e => .error e
        | .ok (entries, ts1) =>
          match ts1 with
          | (.rcurly, _) :: ts2 => .ok (.mapLit entries, ts2)
          | (_, p) :: _ => .error ("expected closing brace", p)
          | [] => .error ("expected closing brace", endPos)
    | (_, p) :: _ => .error ("unexpected token", p)
    | [] => .error ("unexpected end of input", endPos)
termination_by structural fuel => fuel

/-- Function-call argument list: either immediately closed, or terms
separated by commas and then closed. -/
def parseCallArgs : Nat → Nat → Toks → Except PErr (List Ast × Toks)
  | 0, endPos, _ => .error ("parser fuel exhausted", endPos)
  | fuel + 1, endPos, ts =>
    match ts with
    | (.rparen, _) :: rest => .ok ([], rest)
    | _ =>
      match parseTermList fuel endPos ts with
      | .error e => .error e
      | .ok (args, ts1) =>
        match ts1 with
        | (.rparen, _) :: ts2 => .ok (args, ts2)
        | (_, p) :: _ => .error ("expected closing parenthesis", p)
        | [] => .error ("expected closing parenthesis", endPos)
termination_by structural fuel => fuel

/-- term ("," term)*. -/
def parseTermList : Nat → Nat → Toks → Except PErr (List Ast × Toks)
  | 0, endPos, _ => .error ("parser fuel exhausted", endPos)
  | fuel + 1, endPos, ts =>
    match parseTerm fuel endPos ts with
    | .error e => .error e
    | .ok (a, ts1) =>
      match ts1 with
      | (.comma, _) :: rest =>
        match parseTermList fuel endPos rest with
        | .error e => .error e
        | .ok (items, ts2) => .ok (a :: items, ts2)
      | _ => .ok ([a], ts1)
termination_by structural fuel => fuel

/-- string ":" term ("," string ":" term)*. -/
def parseMapEntryList : Nat → Nat → Toks → Except PErr (List (String × Ast) × Toks)
  | 0, endPos, _ => .error ("parser fuel exhausted", endPos)
  | fuel + 1, endPos, ts =>
    match ts with
    | (.tstr k, _) :: (.colon, _) :: rest =>
      match parseTerm fuel endPos rest with
      | .error e => .error e
      | .ok (v, ts1) =>
        match ts1 with
        | (.comma, _) :: rest1 =>
          match parseMapEntryList fuel endPos rest1 with
          | .error e => .error e
          | .ok (entries, ts2) => .ok ((k, v) :: entries, ts2)
        | _ => .ok ([(k, v)], ts1)
    | (_, p) :: _ => .error ("expected map entry", p)
    | [] => .error ("expected map entry", endPos)
termination_by structural fuel => fuel

end

/-- Parse a complete rule text: tokenise, parse a condition, and require the
whole input to be consumed. -/
def helParse (input : String) : Except PErr Ast :=
  let cs := input.data
  match tokenize (cs.length + 1) cs 0 with
  | .error e => .error e
  | .ok toks =>
    match parseCondition (toks.length * 10 + 10) cs.length toks with
    | .error e => .error e
    | .ok (ast, []) => .ok ast
    | .ok (_, (_, p) :: _) => .error ("unexpected trailing input", p)

/-- Convert a character offset to 1-based line and column. -/
def lineColOf (s : String) (pos : Nat) : Nat × Nat :=
  let pre := s.data.take pos
  (1 + pre.countP (fun c => c == '\n'),
   1 + (pre.reverse.takeWhile (fun c => !(c == '\n'))).length)

/-! ### Text-level API (src/lib.rs) -/

/-- Outcome of a Rust computation that may panic. -/
inductive PanicOr (α : Type) where
  | ok (a : α)
  | panicked (msg : String)

/-- parse_rule (src/lib.rs lines 268-271): HelParser::parse followed by
.expect, which panics with the given message when parsing fails. -/
def parse_rule (input : String) : PanicOr Ast :=
  match helParse input with
  | .ok ast => .ok ast
  | .error _ => .panicked "parse error"

/-- evaluate_with_resolver (src/lib.rs lines 420-427): parse_rule (which can
panic) then evaluation with a resolver-only context. -/
def evaluate_with_resolver (condition : String)
    (resolver : String → String → Option Value) :
    PanicOr (Except EvalError Bool) :=
  match parse_rule condition with
  | .panicked m => .panicked m
  | .ok ast => .ok (evaluate_ast_with_context ast (EvalContext.new resolver))

/-- evaluate_with_context (src/lib.rs lines 429-437). -/
def evaluate_with_context (condition : String)
    (resolver : String → String → Option Value) (builtins : BuiltinsRegistry) :
    PanicOr (Except EvalError Bool) :=
  match parse_rule condition with
  | .panicked m => .panicked m
  | .ok ast => .ok (evaluate_ast_with_context ast (EvalContext.with_builtins resolver builtins))

/-- evaluate_with_trace (src/trace.rs lines 86-103): also starts with
parse_rule and can panic. -/
def evaluate_with_trace (condition : String)
    (resolver : String → String → Option Value)
    (builtins : Option BuiltinsRegistry) :
    PanicOr (Except EvalError EvalTrace) :=
  match parse_rule condition with
  | .panicked m => .panicked m
  | .ok ast => .ok (evaluate_with_trace_ast ast resolver builtins)

/-- validate_expression (src/lib.rs lines 638-654): parse and report a
structured error carrying line and column on failure. -/
def validate_expression (expr : String) : Except HelError Unit :=
  match helParse expr with
  | .ok _ => .ok ()
  | .error (msg, pos) =>
    .error (HelError.parse_error_at msg (lineColOf expr pos).1 (lineColOf expr pos).2)

/-- parse_expression (src/lib.rs lines 668-671): validate, then build the
AST (the second parse in the source cannot panic after validation
succeeded). -/
def parse_expression (expr : String) : Except HelError Ast :=
  match helParse expr with
  | .ok ast => .ok ast
  | .error (msg, pos) =>
    .error (HelError.parse_error_at msg (lineColOf expr pos).1 (lineColOf expr pos).2)

/-- evaluate (src/lib.rs lines 751-755). -/
def evaluate (expr : String) (context : FactsEvalContext) : Except HelError Bool :=
  match parse_expression expr with
  | .error e => .error e
  | .ok ast => evaluateParsed ast context


/-! ### Script parsing (src/lib.rs lines 786-862)

parse_script is line oriented: comments and blank lines are skipped, a line
starting with let and containing an equals sign opens a binding whose
expression may continue over following lines, and the remaining lines form
the final expression.  The expression parser used inside is the modelled
rule parser above (the source calls parse_expression). -/

/-- Rust char-trimming (str::trim) on the whitespace model of Char. -/
def strTrim (s : String) : String :=
  ⟨((s.data.dropWhile Char.isWhitespace).reverse.dropWhile Char.isWhitespace).reverse⟩

/-- Rust str::is_empty. -/
def strIsEmpty (s : String) : Bool := s.data.isEmpty

/-- Rust str::starts_with for string patterns. -/
def strStartsWith (s pat : String) : Bool := pat.data.isPrefixOf s.data

/-- Drop the first n characters of a string. -/
def strDrop (s : String) (n : Nat) : String := ⟨s.data.drop n⟩

/-- Rust str::lines: split on newline, stripping a trailing carriage return
from each line; a final empty segment (input ending in a newline) is not
produced.  The accumulator holds the current line reversed. -/
def finishLine (cur : List Char) : String :=
  match cur with
  | '\r' :: rest => ⟨rest.reverse⟩
  | _ => ⟨cur.reverse⟩

/-- Newline splitting loop for strLines. -/
def splitLinesAux : List Char → List Char → List String
  | [], cur => [finishLine cur]
  | c :: rest, cur =>
    if c == '\n' then finishLine cur :: splitLinesAux rest []
    else splitLinesAux rest (c :: cur)

/-- Rust str::lines. -/
def strLines (s : String) : List String :=
  if s.data.isEmpty then []
  else
    let segs := splitLinesAux s.data []
    if segs.getLast? == some "" then segs.dropLast else segs

/-- Split at the first equals sign (str::find followed by slicing in the
source); none when the string has no equals sign. -/
def splitAtFirstEq (s : String) : Option (String × String) :=
  let pre := s.data.takeWhile (fun c => !(c == '='))
  if pre.length == s.data.length then none
  else some (⟨pre⟩, ⟨s.data.drop (pre.length + 1)⟩)

/-- The multi-line continuation loop of a let binding (src/lib.rs lines
810-824): skip blank and comment lines, stop before a new let line or a line
without an equals sign once some expression text has accumulated, otherwise
join the line onto the expression with a space.  Returns the accumulated
expression text and the unconsumed lines. -/
def collectCont : List String → String → (String × List String)
  | [], acc => (acc, [])
  | l :: ls, acc =>
    let t := strTrim l
    if strIsEmpty t || strStartsWith t "#" then collectCont ls acc
    else if strStartsWith t "let " || (!(strContainsChar t '=') && !(strIsEmpty acc)) then
      (acc, l :: ls)
    else collectCont ls (acc ++ " " ++ t)

/-- The final-expression collection loop (src/lib.rs lines 836-845): join
every remaining non-blank, non-comment line with a space. -/
def collectFinal : List String → String → String
  | [], acc => acc
  | l :: ls, acc =>
    let t := strTrim l
    if !(strIsEmpty t) && !(strStartsWith t "#") then collectFinal ls (acc ++ " " ++ t)
    else collectFinal ls acc

/-- The final-expression branch of parse_script. -/
def finalFrom (t : String) (rest : List String) (bindings : List (String × Ast)) :
    Except HelError Script :=
  match parse_expression (collectFinal rest t) with
  | .error e => .error e
  | .ok ast => .ok ⟨bindings, ast⟩

/-- The main loop of parse_script.  Fuel is structural; the number of lines
plus one is always sufficient because every step consumes at least one
line. -/
def psMain : Nat → List String → List (String × Ast) → Except HelError Script
  | 0, _, _ => .error (HelError.parse_error "script parser fuel exhausted")
  | _fuel + 1, [], _ =>
    .error (HelError.parse_error "Script must have a final boolean expression")
  | fuel + 1, line :: rest, bindings =>
    let t := strTrim line
    if strIsEmpty t || strStartsWith t "#" then psMain fuel rest bindings
    else if strStartsWith t "let " then
      match splitAtFirstEq (strTrim (strDrop t 4)) with
      | some (namePart, exprInit) =>
        let cont := collectCont rest (strTrim exprInit)
        match parse_expression cont.1 with
        | .error e => .error e
        | .ok ast => psMain fuel cont.2 (bindings ++ [(strTrim namePart, ast)])
      | none => finalFrom t rest bindings
    else finalFrom t rest bindings
termination_by structural fuel => fuel

/-- parse_script (src/lib.rs lines 786-862). -/
def parse_script (script : String) : Except HelError Script :=
  let ls := strLines script
  psMain (ls.length + 1) ls []

/-- evaluate_script (src/lib.rs lines 888-906). -/
def evaluate_script (script : String) (context : FactsEvalContext) :
    Except HelError Bool :=
  match parse_script script with
  | .error e => .error e
  | .ok parsed => evaluate_script_ast parsed context


/-! ### Predicates and concrete inputs used by the theorems -/

mutual

/-- True when every boolean-position node of the AST is a Bool literal, an
And, an Or or a Comparison: exactly the shapes that evaluate_ast_with_trace
handles without its false-returning catch-all arm. -/
def boolSkel : Ast → Bool
  | .bool _ => true
  | .and nodes => boolSkelList nodes
  | .or nodes => boolSkelList nodes
  | .cmp _ _ _ => true
  | _ => false
termination_by a => sizeOf a

/-- boolSkel over a child list. -/
def boolSkelList : List Ast → Bool
  | [] => true
  | a :: rest => boolSkel a && boolSkelList rest
termination_by l => sizeOf l

end

mutual

/-- True when the identifier name occurs anywhere in the expression (the
only construct whose evaluation consults the variable environment). -/
def mentions (n : String) : Ast → Bool
  | .ident m => m == n
  | .cmp l _ r => mentions n l || mentions n r
  | .and xs => mentionsAny n xs
  | .or xs => mentionsAny n xs
  | .listLit xs => mentionsAny n xs
  | .mapLit es => mentionsEntries n es
  | .call _ _ args => mentionsAny n args
  | _ => false
termination_by a => sizeOf a

/-- mentions over a child list. -/
def mentionsAny (n : String) : List Ast → Bool
  | [] => false
  | a :: rest => mentions n a || mentionsAny n rest
termination_by l => sizeOf l

/-- mentions over map-literal entries. -/
def mentionsEntries (n : String) : List (String × Ast) → Bool
  | [] => false
  | (_, a) :: rest => mentions n a || mentionsEntries n rest
termination_by l => sizeOf l

end

/-- Two contexts that share resolver and built-ins and whose variable
environments agree everywhere except possibly at one name. -/
def VarAgree (n : String) (c c1 : EvalContext) : Prop :=
  c.resolver = c1.resolver ∧ c.builtins = c1.builtins ∧
    ∀ m, m ≠ n → c.vars m = c1.vars m

/-- Invariant of a trace: the facts set is duplicate-free and holds exactly
the dotted left texts of the recorded atoms. -/
def SetInv (t : EvalTrace) : Prop :=
  t.facts_used_set.Nodup ∧
    ∀ s, s ∈ t.facts_used_set ↔ ∃ a ∈ t.atoms, a.left = s ∧ strContainsChar s '.' = true

/-- Reachability in the dependency graph: a package, or transitively any
dependency of a reachable package. -/
inductive Reach (g : Graph) : String → String → Prop
  | refl (a : String) : Reach g a a
  | step {a d b : String} {deps : List String} :
      lookupG g a = some deps → d ∈ deps → Reach g d b → Reach g a b

/-- Every element of the list has all its dependencies strictly earlier in
the list (the topological-order property of resolve_all output). -/
def DepsFirst (g : Graph) (l : List String) : Prop :=
  ∀ (i : Nat) (hi : i < l.length) (deps : List String),
    lookupG g (l.get ⟨i, hi⟩) = some deps → ∀ d ∈ deps, d ∈ l.take i

/-- Concrete resolver used by witnesses: two binary-analysis facts. -/
def resolverW : String → String → Option Value := fun o f =>
  if o == "binary" && f == "format" then some (.str "elf")
  else if o == "security" && f == "nx_enabled" then some (.bool true)
  else none

/-- Context over resolverW without built-ins. -/
def ctxW : EvalContext := EvalContext.new resolverW

/-- Empty facts context. -/
def noFactsW : FactsEvalContext := fun _ => none

/-- A function call without a registry: evaluating it always errors. -/
def errCallW : Ast := .call none "f" []

/-- A built-in implementation used by the C10 witness. -/
def fnW : BFn := fun _ => .ok .null

/-- A provider whose function table stores a key with an uppercase letter. -/
def provW : BuiltinsProvider := ⟨"core", [("Len", fnW)]⟩

/-- The registry obtained by registering provW into an empty registry. -/
def regW : BuiltinsRegistry := ⟨[("core", [("Len", fnW)])]⟩

/-- The two-package dependency cycle a to b to a. -/
def cycleG : Graph := [("a", ["b"]), ("b", ["a"])]

/-- A small acyclic graph used by the C8 witness. -/
def lineG : Graph := [("a", ["b"]), ("b", [])]

/-- A rank function witnessing acyclicity of lineG. -/
def rankW : String → Nat := fun s => if s == "a" then 1 else 0

/-- The comparison atom recorded while evaluating the C7 witness rule. -/
def atomW : AtomTrace :=
  ⟨"binary.format", .Eq, "\"elf\"", some "elf", some "elf", true⟩

/-- The trace produced by the C7 witness evaluation. -/
def trW : EvalTrace := ⟨true, [atomW], ["binary.format"]⟩

/-- The rule evaluated by the C7 witness. -/
def astC7W : Ast := .cmp (.attr "binary" "format") .Eq (.str "elf")


/-! ## Theorems -/

/-! ### Claim C1 -/

theorem isNanNumber_iff (v : Value) : v.isNanNumber = true ↔ v = .num .nan := by
  cases v with
  | num f => cases f <;> simp [Value.isNanNumber]
  | _ => simp [Value.isNanNumber]

theorem compareEqArm_nan (l r : Value)
    (h : l.isNanNumber = true ∨ r.isNanNumber = true) : compareEqArm l r = false := by
  rcases h with h | h <;> rw [isNanNumber_iff] at h <;> subst h
  · cases r <;> simp [compareEqArm, HF.is_nan]
  · cases l <;> simp [compareEqArm, HF.is_nan]

/-- Claim C1 counterexample: the claim says every comparator, Ne included,
returns false when a side is Number(NaN); but Ne is the negation of Eq in
compare_new_values, so Ne on a NaN pair returns true. -/
theorem C1_ne_nan_counterexample :
    compare_new_values (.num .nan) (.num .nan) .Ne = true := by decide

/-- Claim C1 (amended): for every pair of Values where at least one side is
Number(NaN), compare_new_values returns false for Eq, Gt, Ge, Lt, Le,
Contains and In, while Ne, defined as the negation of Eq, returns true. -/
theorem C1_nan_comparison_semantics (l r : Value)
    (h : l.isNanNumber = true ∨ r.isNanNumber = true) :
    compare_new_values l r .Eq = false ∧
    compare_new_values l r .Gt = false ∧
    compare_new_values l r .Ge = false ∧
    compare_new_values l r .Lt = false ∧
    compare_new_values l r .Le = false ∧
    compare_new_values l r .Contains = false ∧
    compare_new_values l r .In = false ∧
    compare_new_values l r .Ne = true := by
  have heq : compareEqArm l r = false := compareEqArm_nan l r h
  refine ⟨by simp [compare_new_values, heq], ?_, ?_, ?_, ?_, ?_, ?_,
          by simp [compare_new_values, heq]⟩
  all_goals rcases h with h | h <;> rw [isNanNumber_iff] at h <;> subst h
  case _ => cases r <;> simp [compare_new_values, HF.is_nan]
  case _ => cases l <;> simp [compare_new_values, HF.is_nan]
  case _ => cases r <;> simp [compare_new_values, HF.is_nan]
  case _ => cases l <;> simp [compare_new_values, HF.is_nan]
  case _ => cases r <;> simp [compare_new_values, HF.is_nan]
  case _ => cases l <;> simp [compare_new_values, HF.is_nan]
  case _ => cases r <;> simp [compare_new_values, HF.is_nan]
  case _ => cases l <;> simp [compare_new_values, HF.is_nan]
  case _ =>
    cases r <;> simp [compare_new_values]
  case _ =>
    cases l <;> simp [compare_new_values]
    case list xs =>
      intro x _
      exact compareEqArm_nan x (.num .nan) (Or.inr (by simp [Value.isNanNumber]))
  case _ =>
    cases r <;> simp [compare_new_values]
    case list xs =>
      intro x _
      exact compareEqArm_nan (.num .nan) x (Or.inl (by simp [Value.isNanNumber]))
  case _ =>
    cases l <;> simp [compare_new_values]

/-- Claim C1 witness: the amended statement at the concrete pair
(Number(NaN), Number(0)). -/
theorem C1_nan_comparison_semantics_witness :
    compare_new_values (.num .nan) (.num (.q 0)) .Eq = false ∧
    compare_new_values (.num .nan) (.num (.q 0)) .Gt = false ∧
    compare_new_values (.num .nan) (.num (.q 0)) .Ge = false ∧
    compare_new_values (.num .nan) (.num (.q 0)) .Lt = false ∧
    compare_new_values (.num .nan) (.num (.q 0)) .Le = false ∧
    compare_new_values (.num .nan) (.num (.q 0)) .Contains = false ∧
    compare_new_values (.num .nan) (.num (.q 0)) .In = false ∧
    compare_new_values (.num .nan) (.num (.q 0)) .Ne = true :=
  C1_nan_comparison_semantics (.num .nan) (.num (.q 0)) (Or.inl (by decide))


/-! ### Claim C3 -/

/-- Claim C3 counterexample: two empty lists have the same length and are
vacuously pointwise equal, and contain no NaN, so the claim demands
Eq to be true; compare_new_values has no List/List arm for Eq and returns
false. -/
theorem C3_list_eq_counterexample :
    compare_new_values (.list []) (.list []) .Eq = false ∧
    (Value.list []).noNaN = true :=
  ⟨by decide, by simp [Value.noNaN]⟩

/-- Claim C3 (amended): Eq on two List values is always false regardless of
their contents, and likewise on two Map values; consequently Eq(v, v) holds
exactly for the non-collection values (Null, Bool, String, and NaN-free
Number), and Ne(v, v) is always the negation of Eq(v, v). -/
theorem C3_structural_eq_semantics :
    (∀ xs ys, compare_new_values (.list xs) (.list ys) .Eq = false) ∧
    (∀ m1 m2, compare_new_values (.map m1) (.map m2) .Eq = false) ∧
    (∀ v : Value, v.noNaN = true →
      compare_new_values v v .Eq = !v.isListOrMap) ∧
    (∀ v : Value, compare_new_values v v .Ne = !compare_new_values v v .Eq) := by
  refine ⟨fun xs ys => by simp [compare_new_values, compareEqArm],
          fun m1 m2 => by simp [compare_new_values, compareEqArm],
          fun v hv => ?_, fun v => rfl⟩
  cases v with
  | null => simp [compare_new_values, compareEqArm, Value.isListOrMap]
  | bool b => simp [compare_new_values, compareEqArm, Value.isListOrMap]
  | str s => simp [compare_new_values, compareEqArm, Value.isListOrMap]
  | num f =>
    cases f with
    | nan => simp [Value.noNaN, HF.is_nan] at hv
    | q x => simp [compare_new_values, compareEqArm, Value.isListOrMap, HF.is_nan, HF.feq]
  | list xs => simp [compare_new_values, compareEqArm, Value.isListOrMap]
  | map m => simp [compare_new_values, compareEqArm, Value.isListOrMap]

/-- Claim C3 witness: the amended statement applied at the NaN-free number 1
and at a concrete list pair. -/
theorem C3_structural_eq_semantics_witness :
    compare_new_values (.num (.q 1)) (.num (.q 1)) .Eq
      = !(Value.num (.q 1)).isListOrMap ∧
    compare_new_values (.list []) (.list [.null]) .Eq = false :=
  ⟨C3_structural_eq_semantics.2.2.1 (.num (.q 1)) (by simp [Value.noNaN, HF.is_nan]),
   C3_structural_eq_semantics.1 [] [.null]⟩


/-! ### Claim C9 -/

/-- Claim C9: the core built-in len returns the number of UTF-8 bytes of a
String argument, not the number of characters: for every string the call
through the registry returns Number(utf8 byte count), and for the two-byte
character é the byte count 2 exceeds the character count 1. -/
theorem C9_core_len_counts_bytes :
    (∀ s : String, coreRegistry.call "core" "len" [.str s]
        = .ok (.num (.q (s.utf8ByteSize : ℚ)))) ∧
    coreRegistry.call "core" "len" [.str "é"]
      = .ok (.num (.q ("é".utf8ByteSize : ℚ))) ∧
    "é".utf8ByteSize = 2 ∧ "é".length = 1 :=
  ⟨fun _ => rfl, rfl, by decide, by decide⟩

/-! ### Claim C10 -/

theorem charToLower_cases (c : Char) :
    charToLower c = c ∨ charToLower c ∈
      ['a', 'b', 'c', 'd', 'e', 'f', 'g', 'h', 'i', 'j', 'k', 'l', 'm',
       'n', 'o', 'p', 'q', 'r', 's', 't', 'u', 'v', 'w', 'x', 'y', 'z'] := by
  unfold charToLower
  split <;> simp

theorem charToLower_fixed_of_lower (d : Char)
    (hd : d ∈ ['a', 'b', 'c', 'd', 'e', 'f', 'g', 'h', 'i', 'j', 'k', 'l', 'm',
      'n', 'o', 'p', 'q', 'r', 's', 't', 'u', 'v', 'w', 'x', 'y', 'z']) :
    charToLower d = d := by
  fin_cases hd <;> rfl

theorem charToLower_idem (c : Char) : charToLower (charToLower c) = charToLower c := by
  rcases charToLower_cases c with h | h
  · rw [h, h]
  · exact charToLower_fixed_of_lower _ h

theorem strToLower_idem (s : String) : strToLower (strToLower s) = strToLower s := by
  simp only [strToLower, List.map_map]
  refine congrArg String.mk (List.map_congr_left ?_)
  intro a _
  exact charToLower_idem a

/-- Claim C10: register lower-cases only the namespace and stores function
names exactly as supplied, while call and has_function lower-case the
requested function name before lookup; hence a provider table entry whose
key is changed by lower-casing (contains an uppercase letter) can never be
reached by the lookup shared by call and has_function, under any requested
namespace and function spelling. -/
theorem C10_uppercase_builtin_unreachable
    (p : BuiltinsProvider) (r : BuiltinsRegistry) (k : String) (f : BFn)
    (_hreg : BuiltinsRegistry.new.register p = .ok r)
    (_hmem : (k, f) ∈ p.get_builtins)
    (hk : strToLower k ≠ k) :
    ∀ ns q g, r.findEntry ns q ≠ some (k, g) := by
  intro ns q g hfind
  unfold BuiltinsRegistry.findEntry at hfind
  cases hl : r.providers.lookup (strToLower ns) with
  | none => rw [hl] at hfind; exact absurd hfind (by simp)
  | some tbl =>
    rw [hl] at hfind
    simp only at hfind
    have hpred := List.find?_some hfind
    have hkey : k = strToLower q := by
      have : (k == strToLower q) = true := hpred
      exact eq_of_beq this
    apply hk
    rw [hkey]
    exact strToLower_idem q

/-- Claim C10 witness: registering a provider with the stored key Len, no
lookup (here: the exact spelling Len) can reach that entry. -/
theorem C10_uppercase_builtin_unreachable_witness :
    regW.findEntry "core" "Len" ≠ some ("Len", fnW) :=
  C10_uppercase_builtin_unreachable provW regW "Len" fnW rfl
    (List.Mem.head _) (by decide) "core" "Len" fnW


/-! ### Claim C5 -/

theorem evalAndNodes_first_false (ctx : EvalContext) (pre : List Ast) (x : Ast)
    (rest : List Ast)
    (hpre : ∀ y ∈ pre, evaluate_ast_with_context y ctx = .ok true)
    (hx : evaluate_ast_with_context x ctx = .ok false) :
    evalAndNodes (pre ++ x :: rest) ctx = .ok false := by
  induction pre with
  | nil => simp [evalAndNodes, hx]
  | cons p ps ih =>
    have hp := hpre p (by simp)
    simp only [List.cons_append, evalAndNodes, hp]
    exact ih (fun y hy => hpre y (by simp [hy]))

theorem evalOrNodes_first_true (ctx : EvalContext) (pre : List Ast) (x : Ast)
    (rest : List Ast)
    (hpre : ∀ y ∈ pre, evaluate_ast_with_context y ctx = .ok false)
    (hx : evaluate_ast_with_context x ctx = .ok true) :
    evalOrNodes (pre ++ x :: rest) ctx = .ok true := by
  induction pre with
  | nil => simp [evalOrNodes, hx]
  | cons p ps ih =>
    have hp := hpre p (by simp)
    simp only [List.cons_append, evalOrNodes, hp]
    exact ih (fun y hy => hpre y (by simp [hy]))

/-- Claim C5: an empty And evaluates to true and an empty Or to false; an
And whose children up to some child evaluate to true and whose next child
evaluates to false returns false without evaluating the remaining children
(which may therefore error without effect), and dually an Or returns true at
the first true child. -/
theorem C5_short_circuit :
    (∀ ctx : EvalContext, evaluate_ast_with_context (.and []) ctx = .ok true) ∧
    (∀ ctx : EvalContext, evaluate_ast_with_context (.or []) ctx = .ok false) ∧
    (∀ (ctx : EvalContext) (pre : List Ast) (x : Ast) (rest : List Ast),
      (∀ y ∈ pre, evaluate_ast_with_context y ctx = .ok true) →
      evaluate_ast_with_context x ctx = .ok false →
      evaluate_ast_with_context (.and (pre ++ x :: rest)) ctx = .ok false) ∧
    (∀ (ctx : EvalContext) (pre : List Ast) (x : Ast) (rest : List Ast),
      (∀ y ∈ pre, evaluate_ast_with_context y ctx = .ok false) →
      evaluate_ast_with_context x ctx = .ok true →
      evaluate_ast_with_context (.or (pre ++ x :: rest)) ctx = .ok true) := by
  refine ⟨fun ctx => by simp [evaluate_ast_with_context, evalAndNodes],
          fun ctx => by simp [evaluate_ast_with_context, evalOrNodes],
          fun ctx pre x rest hpre hx => ?_,
          fun ctx pre x rest hpre hx => ?_⟩
  · simp only [evaluate_ast_with_context]
    exact evalAndNodes_first_false ctx pre x rest hpre hx
  · simp only [evaluate_ast_with_context]
    exact evalOrNodes_first_true ctx pre x rest hpre hx

/-- Claim C5 witness: the And of true, false and an erroring function call
returns false, although evaluating the function call alone errors. -/
theorem C5_short_circuit_witness :
    evaluate_ast_with_context (.and [.bool true, .bool false, errCallW]) ctxW
      = .ok false ∧
    evaluate_ast_with_context errCallW ctxW
      = .error (.invalidOperation
          "Function calls not supported without built-ins registry: core.f") := by
  constructor
  · have h := C5_short_circuit.2.2.1 ctxW [.bool true] (.bool false) [errCallW]
      (by intro y hy; simp at hy; subst hy; simp [evaluate_ast_with_context])
      (by simp [evaluate_ast_with_context])
    simpa using h
  · simp [evaluate_ast_with_context, errCallW, eval_node_to_value_with_context,
          evalValueList, ctxW, EvalContext.new]


/-! ### Claim C4 -/

mutual

theorem traceAgree (a : Ast) (ctx : EvalContext) (tr : EvalTrace)
    (h : boolSkel a = true) :
    (evaluate_ast_with_trace a ctx tr).map Prod.fst
      = evaluate_ast_with_context a ctx := by
  match a with
  | .bool b =>
    simp [evaluate_ast_with_trace, evaluate_ast_with_context, Except.map]
  | .and nodes =>
    have hl : boolSkelList nodes = true := by simpa [boolSkel] using h
    simp only [evaluate_ast_with_trace, evaluate_ast_with_context]
    exact traceAgreeAnd nodes ctx tr hl
  | .or nodes =>
    have hl : boolSkelList nodes = true := by simpa [boolSkel] using h
    simp only [evaluate_ast_with_trace, evaluate_ast_with_context]
    exact traceAgreeOr nodes ctx tr hl
  | .cmp l op r =>
    simp only [evaluate_ast_with_trace, evaluate_ast_with_context,
      evaluate_comparison_with_trace, evaluate_comparison_with_context]
    cases eval_node_to_value_with_context l ctx with
    | error e => simp [Except.map]
    | ok lv =>
      cases eval_node_to_value_with_context r ctx with
      | error e => simp [Except.map]
      | ok rv => simp [Except.map]
  | .str s => exact absurd h (by simp [boolSkel])
  | .num n => exact absurd h (by simp [boolSkel])
  | .float f => exact absurd h (by simp [boolSkel])
  | .ident s => exact absurd h (by simp [boolSkel])
  | .attr o f => exact absurd h (by simp [boolSkel])
  | .listLit es => exact absurd h (by simp [boolSkel])
  | .mapLit es => exact absurd h (by simp [boolSkel])
  | .call ns nm args => exact absurd h (by simp [boolSkel])
termination_by (sizeOf a, 1)

theorem traceAgreeAnd (nodes : List Ast) (ctx : EvalContext) (tr : EvalTrace)
    (h : boolSkelList nodes = true) :
    (traceAndNodes nodes ctx tr).map Prod.fst = evalAndNodes nodes ctx := by
  match nodes with
  | [] => simp [traceAndNodes, evalAndNodes, Except.map]
  | n :: rest =>
    have hn : boolSkel n = true := by
      have h1 := h; simp [boolSkelList] at h1; exact h1.1
    have hrest : boolSkelList rest = true := by
      have h1 := h; simp [boolSkelList] at h1; exact h1.2
    have hchild := traceAgree n ctx tr hn
    cases hc : evaluate_ast_with_trace n ctx tr with
    | error e =>
      have hplain : evaluate_ast_with_context n ctx = .error e := by
        rw [← hchild, hc]; rfl
      simp [traceAndNodes, evalAndNodes, hc, hplain, Except.map]
    | ok p =>
      rcases p with ⟨b, tr1⟩
      have hplain : evaluate_ast_with_context n ctx = .ok b := by
        rw [← hchild, hc]; rfl
      cases b with
      | false => simp [traceAndNodes, evalAndNodes, hc, hplain, Except.map]
      | true =>
        have ih := traceAgreeAnd rest ctx tr1 hrest
        simpa [traceAndNodes, evalAndNodes, hc, hplain, Except.map] using ih
termination_by (sizeOf nodes, 0)

theorem traceAgreeOr (nodes : List Ast) (ctx : EvalContext) (tr : EvalTrace)
    (h : boolSkelList nodes = true) :
    (traceOrNodes nodes ctx tr).map Prod.fst = evalOrNodes nodes ctx := by
  match nodes with
  | [] => simp [traceOrNodes, evalOrNodes, Except.map]
  | n :: rest =>
    have hn : boolSkel n = true := by
      have h1 := h; simp [boolSkelList] at h1; exact h1.1
    have hrest : boolSkelList rest = true := by
      have h1 := h; simp [boolSkelList] at h1; exact h1.2
    have hchild := traceAgree n ctx tr hn
    cases hc : evaluate_ast_with_trace n ctx tr with
    | error e =>
      have hplain : evaluate_ast_with_context n ctx = .error e := by
        rw [← hchild, hc]; rfl
      simp [traceOrNodes, evalOrNodes, hc, hplain, Except.map]
    | ok p =>
      rcases p with ⟨b, tr1⟩
      have hplain : evaluate_ast_with_context n ctx = .ok b := by
        rw [← hchild, hc]; rfl
      cases b with
      | true => simp [traceOrNodes, evalOrNodes, hc, hplain, Except.map]
      | false =>
        have ih1 := traceAgreeOr rest ctx tr1 hrest
        simpa [traceOrNodes, evalOrNodes, hc, hplain, Except.map] using ih1
termination_by (sizeOf nodes, 0)

end

/-- Claim C4 counterexample: the claim says the plain evaluator and the
trace result agree whenever both succeed; on the rule consisting of the bare
attribute security.nx_enabled, with a resolver returning Bool(true) for it,
both succeed but the plain evaluator returns true while
evaluate_ast_with_trace falls into its catch-all arm and the trace result is
false. -/
theorem C4_bare_attribute_counterexample :
    evaluate_ast_with_context (.attr "security" "nx_enabled") ctxW = .ok true ∧
    (evaluate_with_trace_ast (.attr "security" "nx_enabled") resolverW none).map
        EvalTrace.result = .ok false := by
  constructor
  · simp [evaluate_ast_with_context, eval_node_to_value_with_context, ctxW,
          EvalContext.new, resolverW]
  · simp [evaluate_with_trace_ast, evaluate_ast_with_trace, EvalContext.new,
          EvalTrace.new, EvalTrace.set_result, Except.map]

/-- Claim C4 (amended): the plain evaluator and the traced evaluator compute
the same outcome (same boolean and same error) for every rule whose
boolean-position nodes are only Bool literals, And, Or and Comparison nodes;
in particular the result field of a successful trace equals the plain
boolean.  For other boolean-position nodes (bare attributes, identifiers,
function calls) the traced evaluator returns false where the plain evaluator
coerces a Bool value or errors, as the counterexample shows. -/
theorem C4_trace_result_agreement :
    (∀ (a : Ast) (ctx : EvalContext) (tr : EvalTrace), boolSkel a = true →
      (evaluate_ast_with_trace a ctx tr).map Prod.fst
        = evaluate_ast_with_context a ctx) ∧
    (∀ (a : Ast) (resolver : String → String → Option Value)
        (b : BuiltinsRegistry), boolSkel a = true →
      (evaluate_with_trace_ast a resolver (some b)).map EvalTrace.result
        = evaluate_ast_with_context a (EvalContext.with_builtins resolver b)) ∧
    (∀ (a : Ast) (resolver : String → String → Option Value), boolSkel a = true →
      (evaluate_with_trace_ast a resolver none).map EvalTrace.result
        = evaluate_ast_with_context a (EvalContext.new resolver)) := by
  refine ⟨fun a ctx tr h => traceAgree a ctx tr h,
          fun a resolver b h => ?_, fun a resolver h => ?_⟩
  · have hmain := traceAgree a (EvalContext.with_builtins resolver b) EvalTrace.new h
    simp only [evaluate_with_trace_ast]
    cases hc : evaluate_ast_with_trace a (EvalContext.with_builtins resolver b)
        EvalTrace.new with
    | error e =>
      rw [hc] at hmain
      simp [Except.map] at hmain
      simp [← hmain, Except.map]
    | ok p =>
      rw [hc] at hmain
      simp [Except.map] at hmain
      rcases p with ⟨bv, tr1⟩
      simp [← hmain, Except.map, EvalTrace.set_result]
  · have hmain := traceAgree a (EvalContext.new resolver) EvalTrace.new h
    simp only [evaluate_with_trace_ast]
    cases hc : evaluate_ast_with_trace a (EvalContext.new resolver)
        EvalTrace.new with
    | error e =>
      rw [hc] at hmain
      simp [Except.map] at hmain
      simp [← hmain, Except.map]
    | ok p =>
      rw [hc] at hmain
      simp [Except.map] at hmain
      rcases p with ⟨bv, tr1⟩
      simp [← hmain, Except.map, EvalTrace.set_result]

/-- Claim C4 witness: the amended agreement at a concrete comparison rule,
resolver and fresh trace. -/
theorem C4_trace_result_agreement_witness :
    (evaluate_ast_with_trace astC7W ctxW EvalTrace.new).map Prod.fst
      = evaluate_ast_with_context astC7W ctxW ∧
    (evaluate_with_trace_ast astC7W resolverW none).map EvalTrace.result
      = evaluate_ast_with_context astC7W (EvalContext.new resolverW) :=
  ⟨C4_trace_result_agreement.1 astC7W ctxW EvalTrace.new (by simp [astC7W, boolSkel]),
   C4_trace_result_agreement.2.2 astC7W resolverW (by simp [astC7W, boolSkel])⟩


/-! ### Claim C2 -/

/-- Claim C2: the claim says evaluate_with_resolver, evaluate_with_context
and evaluate_with_trace return a structured error on a syntactically
malformed rule, and validate_expression returns Ok or a ParseError with line
and column.  The validate_expression half holds, but the three evaluation
entry points call parse_rule, whose .expect panics on the malformed input
consisting of a single opening parenthesis — a code bug relative to the
spec, which declares that no panic is a legal outcome for well-formed UTF-8
input. -/
theorem C2_malformed_input_panics :
    (∀ resolver, evaluate_with_resolver "(" resolver = .panicked "parse error") ∧
    (∀ resolver builtins,
      evaluate_with_context "(" resolver builtins = .panicked "parse error") ∧
    (∀ resolver builtins,
      evaluate_with_trace "(" resolver builtins = .panicked "parse error") ∧
    validate_expression "("
      = .error (HelError.parse_error_at "unexpected end of input" 1 2) ∧
    (∀ s : String,
      validate_expression s = .ok () ∨
      ∃ e, validate_expression s = .error e ∧
        e.line.isSome = true ∧ e.column.isSome = true ∧ e.kind = .parseErrorKind) := by
  have hp : helParse "(" = .error ("unexpected end of input", 1) := rfl
  refine ⟨fun resolver => ?_, fun resolver builtins => ?_, fun resolver builtins => ?_,
          rfl, fun s => ?_⟩
  · simp [evaluate_with_resolver, parse_rule, hp]
  · simp [evaluate_with_context, parse_rule, hp]
  · simp [evaluate_with_trace, parse_rule, hp]
  · cases hps : helParse s with
    | ok ast => exact Or.inl (by simp [validate_expression, hps])
    | error e =>
      rcases e with ⟨msg, pos⟩
      exact Or.inr ⟨HelError.parse_error_at msg (lineColOf s pos).1 (lineColOf s pos).2,
        by simp [validate_expression, hps], by simp [HelError.parse_error_at],
        by simp [HelError.parse_error_at], by simp [HelError.parse_error_at]⟩


/-! ### Claim C6 -/

theorem VarAgree.vars_eq {n : String} {c c1 : EvalContext} (h : VarAgree n c c1)
    {m : String} (hm : m ≠ n) : c.vars m = c1.vars m :=
  h.2.2 m hm

theorem VarAgree.with_variable {n : String} {c c1 : EvalContext}
    (h : VarAgree n c c1) (m : String) (v : Value) :
    VarAgree n (c.with_variable m v) (c1.with_variable m v) := by
  refine ⟨h.1, h.2.1, fun p hp => ?_⟩
  simp only [EvalContext.with_variable]
  by_cases hpm : (p == m) = true <;> simp [hpm, h.2.2 p hp]

theorem VarAgree.insert_self (n : String) (c : EvalContext) (v : Value) :
    VarAgree n (c.with_variable n v) c := by
  refine ⟨rfl, rfl, fun p hp => ?_⟩
  simp only [EvalContext.with_variable]
  have : (p == n) = false := beq_eq_false_iff_ne.mpr hp
  simp [this]

mutual

theorem unusedEvalB (n : String) (a : Ast) (c c1 : EvalContext)
    (hv : VarAgree n c c1) (h : mentions n a = false) :
    evaluate_ast_with_context a c = evaluate_ast_with_context a c1 := by
  match a with
  | .bool b => simp [evaluate_ast_with_context]
  | .and nodes =>
    have hl : mentionsAny n nodes = false := by simpa [mentions] using h
    simp only [evaluate_ast_with_context]
    exact unusedAnd n nodes c c1 hv hl
  | .or nodes =>
    have hl : mentionsAny n nodes = false := by simpa [mentions] using h
    simp only [evaluate_ast_with_context]
    exact unusedOr n nodes c c1 hv hl
  | .cmp l op r =>
    have hl : mentions n l = false ∧ mentions n r = false := by
      have h1 := h; simp [mentions] at h1; exact h1
    simp only [evaluate_ast_with_context]
    exact unusedCmp n l op r c c1 hv hl.1 hl.2
  | .str s =>
    simp only [evaluate_ast_with_context]
    rw [unusedEvalV n (.str s) c c1 hv h]
  | .num m =>
    simp only [evaluate_ast_with_context]
    rw [unusedEvalV n (.num m) c c1 hv h]
  | .float f =>
    simp only [evaluate_ast_with_context]
    rw [unusedEvalV n (.float f) c c1 hv h]
  | .ident s =>
    simp only [evaluate_ast_with_context]
    rw [unusedEvalV n (.ident s) c c1 hv h]
  | .attr o f =>
    simp only [evaluate_ast_with_context]
    rw [unusedEvalV n (.attr o f) c c1 hv h]
  | .listLit es =>
    simp only [evaluate_ast_with_context]
    rw [unusedEvalV n (.listLit es) c c1 hv h]
  | .mapLit es =>
    simp only [evaluate_ast_with_context]
    rw [unusedEvalV n (.mapLit es) c c1 hv h]
  | .call ns nm args =>
    simp only [evaluate_ast_with_context]
    rw [unusedEvalV n (.call ns nm args) c c1 hv h]
termination_by (sizeOf a, 2)
decreasing_by all_goals (first | decreasing_tactic | (cases op <;> decreasing_tactic))

theorem unusedAnd (n : String) (nodes : List Ast) (c c1 : EvalContext)
    (hv : VarAgree n c c1) (h : mentionsAny n nodes = false) :
    evalAndNodes nodes c = evalAndNodes nodes c1 := by
  match nodes with
  | [] => simp [evalAndNodes]
  | x :: rest =>
    have hx : mentions n x = false ∧ mentionsAny n rest = false := by
      have h1 := h; simp [mentionsAny] at h1; exact h1
    simp only [evalAndNodes]
    rw [unusedEvalB n x c c1 hv hx.1, unusedAnd n rest c c1 hv hx.2]
termination_by (sizeOf nodes, 0)

theorem unusedOr (n : String) (nodes : List Ast) (c c1 : EvalContext)
    (hv : VarAgree n c c1) (h : mentionsAny n nodes = false) :
    evalOrNodes nodes c = evalOrNodes nodes c1 := by
  match nodes with
  | [] => simp [evalOrNodes]
  | x :: rest =>
    have hx : mentions n x = false ∧ mentionsAny n rest = false := by
      have h1 := h; simp [mentionsAny] at h1; exact h1
    simp only [evalOrNodes]
    rw [unusedEvalB n x c c1 hv hx.1, unusedOr n rest c c1 hv hx.2]
termination_by (sizeOf nodes, 0)

theorem unusedCmp (n : String) (l : Ast) (op : Comparator) (r : Ast)
    (c c1 : EvalContext) (hv : VarAgree n c c1)
    (hl : mentions n l = false) (hr : mentions n r = false) :
    evaluate_comparison_with_context l op r c
      = evaluate_comparison_with_context l op r c1 := by
  simp only [evaluate_comparison_with_context]
  rw [unusedEvalV n l c c1 hv hl, unusedEvalV n r c c1 hv hr]
termination_by (sizeOf l + sizeOf r + 1, 0)

theorem unusedEvalV (n : String) (a : Ast) (c c1 : EvalContext)
    (hv : VarAgree n c c1) (h : mentions n a = false) :
    eval_node_to_value_with_context a c = eval_node_to_value_with_context a c1 := by
  match a with
  | .bool b => simp [eval_node_to_value_with_context]
  | .str s => simp [eval_node_to_value_with_context]
  | .num m => simp [eval_node_to_value_with_context]
  | .float f => simp [eval_node_to_value_with_context]
  | .ident s =>
    have hs : s ≠ n := by
      have h1 := h; simp [mentions] at h1; exact h1
    simp only [eval_node_to_value_with_context, EvalContext.get_variable]
    rw [hv.vars_eq hs]
  | .attr o f =>
    simp only [eval_node_to_value_with_context]
    rw [hv.1]
  | .listLit es =>
    have hl : mentionsAny n es = false := by simpa [mentions] using h
    simp only [eval_node_to_value_with_context]
    rw [unusedVList n es c c1 hv hl]
  | .mapLit es =>
    have hl : mentionsEntries n es = false := by simpa [mentions] using h
    simp only [eval_node_to_value_with_context]
    rw [unusedMapE n es c c1 hv hl []]
  | .call ns nm args =>
    have hl : mentionsAny n args = false := by simpa [mentions] using h
    simp only [eval_node_to_value_with_context]
    rw [unusedVList n args c c1 hv hl, hv.2.1]
  | .cmp l op r =>
    have hlr : mentions n l = false ∧ mentions n r = false := by
      have h1 := h; simp [mentions] at h1; exact h1
    simp only [eval_node_to_value_with_context]
    rw [unusedCmp n l op r c c1 hv hlr.1 hlr.2]
  | .and nodes =>
    have hl : mentionsAny n nodes = false := by simpa [mentions] using h
    simp only [eval_node_to_value_with_context]
    rw [unusedAnd n nodes c c1 hv hl]
  | .or nodes =>
    have hl : mentionsAny n nodes = false := by simpa [mentions] using h
    simp only [eval_node_to_value_with_context]
    rw [unusedOr n nodes c c1 hv hl]
termination_by (sizeOf a, 1)
decreasing_by all_goals (first | decreasing_tactic | (cases op <;> decreasing_tactic))

theorem unusedVList (n : String) (es : List Ast) (c c1 : EvalContext)
    (hv : VarAgree n c c1) (h : mentionsAny n es = false) :
    evalValueList es c = evalValueList es c1 := by
  match es with
  | [] => simp [evalValueList]
  | x :: rest =>
    have hx : mentions n x = false ∧ mentionsAny n rest = false := by
      have h1 := h; simp [mentionsAny] at h1; exact h1
    simp only [evalValueList]
    rw [unusedEvalV n x c c1 hv hx.1, unusedVList n rest c c1 hv hx.2]
termination_by (sizeOf es, 0)

theorem unusedMapE (n : String) (es : List (String × Ast)) (c c1 : EvalContext)
    (hv : VarAgree n c c1) (h : mentionsEntries n es = false) :
    ∀ acc, evalMapEntries es acc c = evalMapEntries es acc c1 := by
  match es with
  | [] => intro acc; simp [evalMapEntries]
  | (k, x) :: rest =>
    intro acc
    have hx : mentions n x = false ∧ mentionsEntries n rest = false := by
      have h1 := h; simp [mentionsEntries] at h1; exact h1
    simp only [evalMapEntries]
    rw [unusedEvalV n x c c1 hv hx.1]
    cases eval_node_to_value_with_context x c1 with
    | error e => rfl
    | ok v => exact unusedMapE n rest c c1 hv hx.2 (mapInsert acc k v)
termination_by (sizeOf es, 0)

end

theorem runBindings_append (l1 l2 : List (String × Ast)) (c : EvalContext) :
    runBindings (l1 ++ l2) c
      = match runBindings l1 c with
        | .error e => .error e
        | .ok c1 => runBindings l2 c1 := by
  induction l1 generalizing c with
  | nil => simp [runBindings]
  | cons b rest ih =>
    rcases b with ⟨name, expr⟩
    simp only [List.cons_append, runBindings]
    cases eval_node_to_value_with_context expr c with
    | error e => rfl
    | ok v => exact ih (c.with_variable name v)

theorem unusedRunBindings (n : String) (post : List (String × Ast)) :
    ∀ (c c1 : EvalContext), VarAgree n c c1 →
    (∀ b ∈ post, mentions n b.2 = false) →
    (∃ err, runBindings post c = .error err ∧ runBindings post c1 = .error err) ∨
    (∃ d d1, runBindings post c = .ok d ∧ runBindings post c1 = .ok d1 ∧
      VarAgree n d d1) := by
  induction post with
  | nil => intro c c1 hv _; exact Or.inr ⟨c, c1, rfl, rfl, hv⟩
  | cons b rest ih =>
    intro c c1 hv hm
    rcases b with ⟨m, e⟩
    have he : mentions n e = false := hm (m, e) (by simp)
    have heq := unusedEvalV n e c c1 hv he
    cases hce : eval_node_to_value_with_context e c with
    | error err =>
      refine Or.inl ⟨err, by simp [runBindings, hce], ?_⟩
      rw [hce] at heq
      simp [runBindings, ← heq]
    | ok v =>
      rw [hce] at heq
      have hstep := ih (c.with_variable m v) (c1.with_variable m v)
        (hv.with_variable m v) (fun b hb => hm b (by simp [hb]))
      rcases hstep with ⟨err, h1, h2⟩ | ⟨d, d1, h1, h2, hdd⟩
      · exact Or.inl ⟨err, by simp [runBindings, hce, h1], by simp [runBindings, ← heq, h2]⟩
      · exact Or.inr ⟨d, d1, by simp [runBindings, hce, h1], by simp [runBindings, ← heq, h2], hdd⟩

/-- Claim C6 counterexample: the script adding the let binding x (never
referenced afterwards) to the script consisting of the single expression
true changes the result of evaluate_script from Ok(true) to an error,
because the binding expression is a function call and evaluate_script never
attaches a built-ins registry. -/
theorem C6_unused_binding_counterexample :
    parse_script "let x = core.len(1)\ntrue"
      = .ok ⟨[("x", .call (some "core") "len" [.num 1])], .bool true⟩ ∧
    evaluate_script "let x = core.len(1)\ntrue" noFactsW
      = .error (HelError.eval_error
          "Function calls not supported without built-ins registry: core.len") ∧
    evaluate_script "true" noFactsW = .ok true ∧
    mentions "x" (.bool true) = false := by
  refine ⟨rfl, ?_, ?_, by simp [mentions]⟩
  · have h : parse_script "let x = core.len(1)\ntrue"
        = .ok ⟨[("x", .call (some "core") "len" [.num 1])], .bool true⟩ := rfl
    simp [evaluate_script, h, evaluate_script_ast, runBindings,
          eval_node_to_value_with_context, evalValueList, EvalContext.new,
          HelError.fromEval]
  · have h : parse_script "true" = .ok ⟨[], .bool true⟩ := rfl
    simp [evaluate_script, h, evaluate_script_ast, runBindings,
          evaluate_ast_with_context]

/-- Claim C6 (amended): a script with no bindings evaluates exactly as
evaluate does on its final expression; and adding a let binding whose name
is never referenced by later bindings or the final expression does not
change the result, provided the bindings before the insertion point succeed
and the added binding expression itself evaluates successfully in the
context at that point (an added binding whose evaluation fails — for
example any function call, since evaluate_script attaches no registry —
turns the result into that error instead). -/
theorem C6_script_semantics :
    (∀ (s : Script) (facts : FactsEvalContext), s.bindings = [] →
      evaluate_script_ast s facts = evaluateParsed s.final_expr facts) ∧
    (∀ (facts : FactsEvalContext) (pre post : List (String × Ast)) (final : Ast)
        (n : String) (e : Ast) (ctx1 : EvalContext) (v : Value),
      (∀ b ∈ post, mentions n b.2 = false) →
      mentions n final = false →
      runBindings pre (EvalContext.new (factsResolver facts)) = .ok ctx1 →
      eval_node_to_value_with_context e ctx1 = .ok v →
      evaluate_script_ast ⟨pre ++ (n, e) :: post, final⟩ facts
        = evaluate_script_ast ⟨pre ++ post, final⟩ facts) := by
  constructor
  · intro s facts hb
    rcases s with ⟨bindings, final⟩
    simp only at hb
    subst hb
    simp [evaluate_script_ast, evaluateParsed, runBindings]
  · intro facts pre post final n e ctx1 v hpost hfinal hrun hev
    have hagree : VarAgree n (ctx1.with_variable n v) ctx1 :=
      VarAgree.insert_self n ctx1 v
    have hrest := unusedRunBindings n post (ctx1.with_variable n v) ctx1 hagree hpost
    simp only [evaluate_script_ast, runBindings_append, hrun]
    simp only [runBindings, hev]
    rcases hrest with ⟨err, h1, h2⟩ | ⟨d, d1, h1, h2, hdd⟩
    · rw [h1, h2]
    · rw [h1, h2]
      simp only
      rw [unusedEvalB n final d d1 hdd hfinal]

/-- Claim C6 witness: the amended statement at a no-binding script and at
the insertion of the unused binding y into the empty binding list. -/
theorem C6_script_semantics_witness :
    evaluate_script_ast ⟨[], .bool true⟩ noFactsW
      = evaluateParsed (.bool true) noFactsW ∧
    evaluate_script_ast ⟨[("y", .bool true)], .bool false⟩ noFactsW
      = evaluate_script_ast ⟨[], .bool false⟩ noFactsW :=
  ⟨C6_script_semantics.1 ⟨[], .bool true⟩ noFactsW rfl,
   C6_script_semantics.2 noFactsW [] [] (.bool false) "y" (.bool true)
     (EvalContext.new (factsResolver noFactsW)) (.bool true)
     (by simp) (by simp [mentions]) rfl (by simp [eval_node_to_value_with_context])⟩


/-! ### Claim C7 -/

theorem setInv_new : SetInv EvalTrace.new :=
  ⟨List.nodup_nil, by simp [EvalTrace.new]⟩

theorem setInv_set_result (t : EvalTrace) (r : Bool) (h : SetInv t) :
    SetInv (t.set_result r) := by
  rcases h with ⟨h1, h2⟩
  exact ⟨h1, h2⟩

theorem hashSetInsert_nodup (x : String) (s : List String) (h : s.Nodup) :
    (hashSetInsert x s).Nodup := by
  unfold hashSetInsert
  by_cases hx : x ∈ s
  · simp [hx, h]
  · simp [hx, List.Nodup.append h (List.nodup_singleton x)
      (by simpa [List.disjoint_singleton] using hx)]

theorem hashSetInsert_mem (x y : String) (s : List String) :
    y ∈ hashSetInsert x s ↔ y ∈ s ∨ y = x := by
  unfold hashSetInsert
  by_cases hx : x ∈ s
  · simp only [hx, if_true]
    constructor
    · exact fun h => Or.inl h
    · rintro (h | h)
      · exact h
      · rw [h]; exact hx
  · simp [hx]

theorem setInv_add_atom (t : EvalTrace) (atom : AtomTrace) (h : SetInv t) :
    SetInv (t.add_atom atom) := by
  rcases h with ⟨h1, h2⟩
  constructor
  · simp only [EvalTrace.add_atom]
    cases hd : strContainsChar atom.left '.' with
    | true => simpa [hd] using hashSetInsert_nodup atom.left t.facts_used_set h1
    | false => simpa [hd] using h1
  · intro s
    simp only [EvalTrace.add_atom]
    cases hd : strContainsChar atom.left '.' with
    | true =>
      simp only [hd, if_true, hashSetInsert_mem, h2 s, List.mem_append,
        List.mem_singleton]
      constructor
      · rintro (⟨a1, ha1, hl, hc⟩ | hs)
        · exact ⟨a1, Or.inl ha1, hl, hc⟩
        · exact ⟨atom, Or.inr rfl, hs.symm, hs ▸ hd⟩
      · rintro ⟨a1, ha1 | ha1, hl, hc⟩
        · exact Or.inl ⟨a1, ha1, hl, hc⟩
        · exact Or.inr (by rw [← hl, ha1])
    | false =>
      rw [if_neg (by simp [hd])]
      rw [h2 s]
      simp only [List.mem_append, List.mem_singleton]
      constructor
      · rintro ⟨a1, ha1, hl, hc⟩
        exact ⟨a1, Or.inl ha1, hl, hc⟩
      · rintro ⟨a1, ha1 | ha1, hl, hc⟩
        · exact ⟨a1, ha1, hl, hc⟩
        · subst ha1
          rw [hl, hc] at hd
          exact absurd hd (by simp)

theorem cmpTraceInv (l : Ast) (op : Comparator) (r : Ast) (ctx : EvalContext)
    (t : EvalTrace) (b : Bool) (t1 : EvalTrace) (hinv : SetInv t)
    (h : evaluate_comparison_with_trace l op r ctx t = .ok (b, t1)) :
    SetInv t1 := by
  unfold evaluate_comparison_with_trace at h
  cases h1 : eval_node_to_value_with_context l ctx with
  | error e => rw [h1] at h; exact absurd h (by simp)
  | ok lv =>
    rw [h1] at h
    cases h2 : eval_node_to_value_with_context r ctx with
    | error e => rw [h2] at h; exact absurd h (by simp)
    | ok rv =>
      rw [h2] at h
      simp only [Except.ok.injEq, Prod.mk.injEq] at h
      rw [← h.2]
      exact setInv_add_atom t _ hinv

mutual

theorem traceSetInv (a : Ast) (ctx : EvalContext) :
    ∀ (t : EvalTrace) (b : Bool) (t1 : EvalTrace), SetInv t →
      evaluate_ast_with_trace a ctx t = .ok (b, t1) → SetInv t1 := by
  match a with
  | .bool b0 =>
    intro t b t1 hinv h
    simp [evaluate_ast_with_trace] at h
    rw [← h.2]; exact hinv
  | .and nodes =>
    intro t b t1 hinv h
    simp only [evaluate_ast_with_trace] at h
    exact traceSetInvAnd nodes ctx t b t1 hinv h
  | .or nodes =>
    intro t b t1 hinv h
    simp only [evaluate_ast_with_trace] at h
    exact traceSetInvOr nodes ctx t b t1 hinv h
  | .cmp l op r =>
    intro t b t1 hinv h
    simp only [evaluate_ast_with_trace] at h
    exact cmpTraceInv l op r ctx t b t1 hinv h
  | .str s =>
    intro t b t1 hinv h
    simp [evaluate_ast_with_trace] at h
    rw [← h.2]; exact hinv
  | .num m =>
    intro t b t1 hinv h
    simp [evaluate_ast_with_trace] at h
    rw [← h.2]; exact hinv
  | .float f =>
    intro t b t1 hinv h
    simp [evaluate_ast_with_trace] at h
    rw [← h.2]; exact hinv
  | .ident s =>
    intro t b t1 hinv h
    simp [evaluate_ast_with_trace] at h
    rw [← h.2]; exact hinv
  | .attr o f =>
    intro t b t1 hinv h
    simp [evaluate_ast_with_trace] at h
    rw [← h.2]; exact hinv
  | .listLit es =>
    intro t b t1 hinv h
    simp [evaluate_ast_with_trace] at h
    rw [← h.2]; exact hinv
  | .mapLit es =>
    intro t b t1 hinv h
    simp [evaluate_ast_with_trace] at h
    rw [← h.2]; exact hinv
  | .call ns nm args =>
    intro t b t1 hinv h
    simp [evaluate_ast_with_trace] at h
    rw [← h.2]; exact hinv
termination_by (sizeOf a, 1)

theorem traceSetInvAnd (nodes : List Ast) (ctx : EvalContext) :
    ∀ (t : EvalTrace) (b : Bool) (t1 : EvalTrace), SetInv t →
      traceAndNodes nodes ctx t = .ok (b, t1) → SetInv t1 := by
  match nodes with
  | [] =>
    intro t b t1 hinv h
    simp [traceAndNodes] at h
    rw [← h.2]; exact hinv
  | n :: rest =>
    intro t b t1 hinv h
    simp only [traceAndNodes] at h
    cases hc : evaluate_ast_with_trace n ctx t with
    | error e => rw [hc] at h; exact absurd h (by simp)
    | ok p =>
      rcases p with ⟨bc, tc⟩
      have hic : SetInv tc := traceSetInv n ctx t bc tc hinv hc
      rw [hc] at h
      cases bc with
      | false =>
        simp at h
        rw [← h.2]; exact hic
      | true =>
        simp only at h
        exact traceSetInvAnd rest ctx tc b t1 hic h
termination_by (sizeOf nodes, 0)

theorem traceSetInvOr (nodes : List Ast) (ctx : EvalContext) :
    ∀ (t : EvalTrace) (b : Bool) (t1 : EvalTrace), SetInv t →
      traceOrNodes nodes ctx t = .ok (b, t1) → SetInv t1 := by
  match nodes with
  | [] =>
    intro t b t1 hinv h
    simp [traceOrNodes] at h
    rw [← h.2]; exact hinv
  | n :: rest =>
    intro t b t1 hinv h
    simp only [traceOrNodes] at h
    cases hc : evaluate_ast_with_trace n ctx t with
    | error e => rw [hc] at h; exact absurd h (by simp)
    | ok p =>
      rcases p with ⟨bc, tc⟩
      have hic : SetInv tc := traceSetInv n ctx t bc tc hinv hc
      rw [hc] at h
      cases bc with
      | true =>
        simp at h
        rw [← h.2]; exact hic
      | false =>
        simp only at h
        exact traceSetInvOr rest ctx tc b t1 hic h
termination_by (sizeOf nodes, 0)

end

theorem facts_used_sorted (t : EvalTrace) :
    List.Sorted (fun x y : String => x ≤ y) t.facts_used :=
  List.sorted_insertionSort (fun x y : String => x ≤ y) t.facts_used_set

theorem facts_used_perm (t : EvalTrace) :
    List.Perm t.facts_used t.facts_used_set :=
  List.perm_insertionSort (fun x y : String => x ≤ y) t.facts_used_set

/-- Claim C7: for every successful traced evaluation, facts_used() is sorted
ascending, contains no duplicates, and holds exactly the left-side texts of
the recorded atoms that contain a dot. -/
theorem C7_facts_used_sorted_dedup_exact (a : Ast)
    (resolver : String → String → Option Value)
    (builtins : Option BuiltinsRegistry) (tr : EvalTrace)
    (h : evaluate_with_trace_ast a resolver builtins = .ok tr) :
    List.Sorted (fun x y : String => x ≤ y) tr.facts_used ∧
    tr.facts_used.Nodup ∧
    (∀ s, s ∈ tr.facts_used ↔
      ∃ a1 ∈ tr.atoms, a1.left = s ∧ strContainsChar s '.' = true) := by
  have hinv : SetInv tr := by
    cases builtins with
    | some b =>
      simp only [evaluate_with_trace_ast] at h
      cases hc : evaluate_ast_with_trace a (EvalContext.with_builtins resolver b)
          EvalTrace.new with
      | error e => rw [hc] at h; exact absurd h (by simp)
      | ok p =>
        rcases p with ⟨res, tr0⟩
        have h0 : SetInv tr0 :=
          traceSetInv a (EvalContext.with_builtins resolver b)
            EvalTrace.new res tr0 setInv_new hc
        rw [hc] at h
        simp only [Except.ok.injEq] at h
        rw [← h]
        exact setInv_set_result tr0 res h0
    | none =>
      simp only [evaluate_with_trace_ast] at h
      cases hc : evaluate_ast_with_trace a (EvalContext.new resolver)
          EvalTrace.new with
      | error e => rw [hc] at h; exact absurd h (by simp)
      | ok p =>
        rcases p with ⟨res, tr0⟩
        have h0 : SetInv tr0 :=
          traceSetInv a (EvalContext.new resolver)
            EvalTrace.new res tr0 setInv_new hc
        rw [hc] at h
        simp only [Except.ok.injEq] at h
        rw [← h]
        exact setInv_set_result tr0 res h0
  refine ⟨facts_used_sorted tr, ?_, ?_⟩
  · exact ((facts_used_perm tr).nodup_iff).mpr hinv.1
  · intro s
    rw [(facts_used_perm tr).mem_iff]
    exact hinv.2 s

/-- Claim C7 witness: the property at the concrete rule astC7W, whose trace
is trW with the single dotted fact binary.format. -/
theorem C7_facts_used_witness :
    List.Sorted (fun x y : String => x ≤ y) trW.facts_used ∧
    trW.facts_used.Nodup ∧
    ("binary.format" ∈ trW.facts_used ↔
      ∃ a1 ∈ trW.atoms, a1.left = "binary.format" ∧
        strContainsChar "binary.format" '.' = true) := by
  have h : evaluate_with_trace_ast astC7W resolverW none = .ok trW := by
    simp [evaluate_with_trace_ast, evaluate_ast_with_trace,
          evaluate_comparison_with_trace, eval_node_to_value_with_context,
          EvalContext.new, resolverW, compare_new_values, compareEqArm,
          node_to_string, value_to_string, EvalTrace.add_atom, EvalTrace.new,
          hashSetInsert, EvalTrace.set_result, strContainsChar, astC7W, trW, atomW]
  have hmain := C7_facts_used_sorted_dedup_exact astC7W resolverW none trW h
  exact ⟨hmain.1, hmain.2.1, hmain.2.2 "binary.format"⟩


/-! ### Claim C8 -/

theorem lookupG_mem_keys (g : Graph) (n : String) (deps : List String)
    (h : lookupG g n = some deps) : n ∈ g.map Prod.fst := by
  induction g with
  | nil => simp [lookupG, List.lookup] at h
  | cons e rest ih =>
    rcases e with ⟨k, v⟩
    simp only [lookupG, List.lookup] at h
    cases hk : (n == k) with
    | true => simp [eq_of_beq hk]
    | false =>
      rw [hk] at h
      simp only [List.map_cons, List.mem_cons]
      exact Or.inr (ih h)

theorem Reach.trans {g : Graph} {a b c : String}
    (h1 : Reach g a b) (h2 : Reach g b c) : Reach g a c := by
  induction h1 with
  | refl _ => exact h2
  | step hl hd _ ih => exact Reach.step hl hd (ih h2)

theorem reach_snoc {g : Graph} {a b d : String} {deps : List String}
    (h : Reach g a b) (hl : lookupG g b = some deps) (hd : d ∈ deps) :
    Reach g a d :=
  h.trans (Reach.step hl hd (Reach.refl d))

theorem reach_rank_le (g : Graph) (root : String) (rank : String → Nat)
    (Hrank : ∀ p deps d, Reach g root p → lookupG g p = some deps → d ∈ deps →
      rank d < rank p) :
    ∀ a b, Reach g a b → Reach g root a → rank b ≤ rank a := by
  intro a b h
  induction h with
  | refl _ => exact fun _ => Nat.le_refl _
  | step hl hd _ ih =>
    intro hroot
    exact Nat.le_trans (ih (reach_snoc hroot hl hd))
      (Nat.le_of_lt (Hrank _ _ _ hroot hl hd))

theorem depsFirst_nil (g : Graph) : DepsFirst g [] := by
  intro i hi
  simp at hi

theorem depsFirst_append_singleton {g : Graph} {l : List String} {p : String}
    {deps : List String} (hgood : DepsFirst g l) (hl : lookupG g p = some deps)
    (hsub : ∀ d ∈ deps, d ∈ l) : DepsFirst g (l ++ [p]) := by
  intro i hi deps1 hlook d hd
  have hlen : i < l.length + 1 := by simpa using hi
  rcases Nat.lt_or_ge i l.length with hcase | hcase
  · have hget : (l ++ [p]).get ⟨i, hi⟩ = l.get ⟨i, hcase⟩ := by
      simp only [List.get_eq_getElem]
      exact List.getElem_append_left hcase
    rw [hget] at hlook
    have := hgood i hcase deps1 hlook d hd
    rw [List.take_append_of_le_length (Nat.le_of_lt hcase)]
    exact this
  · have hieq : i = l.length := Nat.le_antisymm (by omega) hcase
    subst hieq
    have hget : (l ++ [p]).get ⟨l.length, hi⟩ = p := by
      simp only [List.get_eq_getElem]
      exact List.getElem_concat_length l p l.length rfl (by simp)
    rw [hget] at hlook
    rw [hl] at hlook
    have hdeq : deps1 = deps := by
      simpa using hlook.symm
    subst hdeq
    rw [List.take_left]
    exact hsub d hd

theorem depsFirst_closed {g : Graph} {l : List String}
    (hgood : DepsFirst g l) :
    ∀ p q, Reach g p q → p ∈ l → q ∈ l := by
  intro p q h
  induction h with
  | refl _ => exact id
  | step hl hd _ ih =>
    intro hp
    obtain ⟨i, hi, hgi⟩ := List.getElem_of_mem hp
    have hstep := hgood i hi _ (by rw [← hgi] at hl; exact hl) _ hd
    exact ih (List.take_subset i l hstep)

theorem nodup_length_le_dedup (l m : List String) (h1 : l.Nodup)
    (h2 : ∀ x ∈ l, x ∈ m) : l.length ≤ m.dedup.length := by
  have h3 : l.length = l.toFinset.card := (List.toFinset_card_of_nodup h1).symm
  have h4 : l.toFinset ⊆ m.toFinset := by
    intro x hx
    rw [List.mem_toFinset] at hx ⊢
    exact h2 x hx
  rw [h3, ← List.card_toFinset m]
  exact Finset.card_le_card h4


theorem resolveAux_correct (g : Graph) (root : String) (rank : String → Nat)
    (Hload : ∀ p, Reach g root p → (lookupG g p).isSome = true)
    (Hrank : ∀ p deps d, Reach g root p → lookupG g p = some deps → d ∈ deps →
      rank d < rank p) :
    ∀ fuel : Nat,
      (∀ (name : String) (res vis : List String),
        DepsFirst g res → res.Nodup → (∀ p ∈ res, Reach g root p) →
        vis.Nodup → (∀ v ∈ vis, v ∈ g.map Prod.fst) →
        ((g.map Prod.fst).dedup).length + 1 ≤ fuel + vis.length →
        Reach g root name → (∀ v ∈ vis, rank name < rank v) →
        ∃ ext, resolveRec g fuel name res vis = .ok (res ++ ext, vis) ∧
          DepsFirst g (res ++ ext) ∧ (res ++ ext).Nodup ∧
          (∀ p ∈ ext, Reach g root p) ∧
          (∀ p ∈ ext, Reach g name p) ∧
          (∀ q, Reach g name q → q ∈ res ++ ext) ∧
          (name ∈ res → ext = []) ∧
          (name ∉ res → ∃ pre1, ext = pre1 ++ [name])) ∧
      (∀ (deps res vis : List String),
        DepsFirst g res → res.Nodup → (∀ p ∈ res, Reach g root p) →
        vis.Nodup → (∀ v ∈ vis, v ∈ g.map Prod.fst) →
        ((g.map Prod.fst).dedup).length + 1 ≤ fuel + vis.length →
        (∀ d ∈ deps, Reach g root d) →
        (∀ d ∈ deps, ∀ v ∈ vis, rank d < rank v) →
        ∃ ext, resolveDeps g fuel deps res vis = .ok (res ++ ext, vis) ∧
          DepsFirst g (res ++ ext) ∧ (res ++ ext).Nodup ∧
          (∀ p ∈ ext, Reach g root p) ∧
          (∀ p ∈ ext, ∃ d ∈ deps, Reach g d p) ∧
          (∀ d ∈ deps, ∀ q, Reach g d q → q ∈ res ++ ext)) := by
  intro fuel
  induction fuel with
  | zero =>
    constructor
    · intro name res vis _ _ _ hvn hvk hfuel _ _
      exfalso
      have := nodup_length_le_dedup vis (g.map Prod.fst) hvn hvk
      omega
    · intro deps res vis _ _ _ hvn hvk hfuel _ _
      exfalso
      have := nodup_length_le_dedup vis (g.map Prod.fst) hvn hvk
      omega
  | succ f ih =>
    have hrec : ∀ (name : String) (res vis : List String),
        DepsFirst g res → res.Nodup → (∀ p ∈ res, Reach g root p) →
        vis.Nodup → (∀ v ∈ vis, v ∈ g.map Prod.fst) →
        ((g.map Prod.fst).dedup).length + 1 ≤ (f + 1) + vis.length →
        Reach g root name → (∀ v ∈ vis, rank name < rank v) →
        ∃ ext, resolveRec g (f + 1) name res vis = .ok (res ++ ext, vis) ∧
          DepsFirst g (res ++ ext) ∧ (res ++ ext).Nodup ∧
          (∀ p ∈ ext, Reach g root p) ∧
          (∀ p ∈ ext, Reach g name p) ∧
          (∀ q, Reach g name q → q ∈ res ++ ext) ∧
          (name ∈ res → ext = []) ∧
          (name ∉ res → ∃ pre1, ext = pre1 ++ [name]) := by
      intro name res vis hgood hnd hres hvn hvk hfuel hreach hrkv
      have hnv : name ∉ vis := fun hmemv => absurd (hrkv name hmemv) (lt_irrefl _)
      by_cases hmem : name ∈ res
      · have hstep : resolveRec g (f + 1) name res vis = .ok (res, vis) := by
          simp only [resolveRec]
          rw [if_neg hnv, if_pos hmem]
        refine ⟨[], by rw [List.append_nil]; exact hstep,
                by rw [List.append_nil]; exact hgood,
                by rw [List.append_nil]; exact hnd,
                by simp, by simp, ?_, fun _ => rfl, fun h => absurd hmem h⟩
        intro q hq
        rw [List.append_nil]
        exact depsFirst_closed hgood name q hq hmem
      · have hsome := Hload name hreach
        obtain ⟨deps, hdeps⟩ := Option.isSome_iff_exists.mp hsome
        have hstep : resolveRec g (f + 1) name res vis
            = match resolveDeps g f deps res (name :: vis) with
              | .error e => .error e
              | .ok (res1, vis1) => .ok (res1 ++ [name], vis1.erase name) := by
          simp only [resolveRec]
          rw [if_neg hnv, if_neg hmem, hdeps]
        have hdeps_inv := ih.2 deps res (name :: vis) hgood hnd hres
          (List.nodup_cons.mpr ⟨hnv, hvn⟩)
          (by
            intro v hv
            rcases List.mem_cons.mp hv with h | h
            · subst h; exact lookupG_mem_keys g v deps hdeps
            · exact hvk v h)
          (by simp only [List.length_cons] at hfuel ⊢; omega)
          (fun d hd => reach_snoc hreach hdeps hd)
          (by
            intro d hd v hv
            rcases List.mem_cons.mp hv with h | h
            · subst h; exact Hrank v deps d hreach hdeps hd
            · exact Nat.lt_trans (Hrank name deps d hreach hdeps hd) (hrkv v h))
        obtain ⟨e1, heq1, hgood1, hnd1, hroot1, hfrom1, hcompl1⟩ := hdeps_inv
        have hname_not : name ∉ res ++ e1 := by
          intro hcontra
          rcases List.mem_append.mp hcontra with h | h
          · exact hmem h
          · obtain ⟨d, hd, hreach_d⟩ := hfrom1 name h
            have h1 : rank name ≤ rank d :=
              reach_rank_le g root rank Hrank d name hreach_d
                (reach_snoc hreach hdeps hd)
            have h2 : rank d < rank name := Hrank name deps d hreach hdeps hd
            omega
        refine ⟨e1 ++ [name], ?_, ?_, ?_, ?_, ?_, ?_,
                fun h => absurd h hmem, fun _ => ⟨e1, rfl⟩⟩
        · rw [hstep, heq1]
          simp only [List.erase_cons_head]
          rw [List.append_assoc]
        · rw [← List.append_assoc]
          exact depsFirst_append_singleton hgood1 hdeps
            (fun d hd => hcompl1 d hd d (Reach.refl d))
        · rw [← List.append_assoc]
          exact List.nodup_append.mpr ⟨hnd1, List.nodup_singleton _,
            by simpa [List.disjoint_singleton] using hname_not⟩
        · intro p hp
          rcases List.mem_append.mp hp with h | h
          · exact hroot1 p h
          · rw [List.mem_singleton.mp h]; exact hreach
        · intro p hp
          rcases List.mem_append.mp hp with h | h
          · obtain ⟨d, hd, hr⟩ := hfrom1 p h
            exact Reach.step hdeps hd hr
          · rw [List.mem_singleton.mp h]; exact Reach.refl name
        · intro q hq
          cases hq with
          | refl => simp
          | step hL hd0 hrest =>
            rw [hdeps] at hL
            have hdeq := Option.some.inj hL
            subst hdeq
            have hin := hcompl1 _ hd0 q hrest
            simp only [List.mem_append] at hin ⊢
            tauto
    refine ⟨hrec, ?_⟩
    intro deps
    induction deps with
    | nil =>
      intro res vis hgood hnd hres hvn hvk hfuel hrd hrv
      refine ⟨[], by rw [List.append_nil]; simp [resolveDeps],
              by rw [List.append_nil]; exact hgood,
              by rw [List.append_nil]; exact hnd,
              by simp, by simp, by simp⟩
    | cons d ds ihd =>
      intro res vis hgood hnd hres hvn hvk hfuel hrd hrv
      have hrec_d := hrec d res vis hgood hnd hres hvn hvk hfuel
        (hrd d (by simp)) (fun v hv => hrv d (by simp) v hv)
      obtain ⟨e1, heq1, hgood1, hnd1, hroot1, hname1, hcompl1, _, _⟩ := hrec_d
      have hstep : resolveDeps g (f + 1) (d :: ds) res vis
          = resolveDeps g (f + 1) ds (res ++ e1) vis := by
        simp only [resolveDeps]
        rw [heq1]
      have hrest := ihd (res ++ e1) vis hgood1 hnd1
        (by
          intro p hp
          rcases List.mem_append.mp hp with h | h
          · exact hres p h
          · exact hroot1 p h)
        hvn hvk hfuel
        (fun d2 hd2 => hrd d2 (by simp [hd2]))
        (fun d2 hd2 v hv => hrv d2 (by simp [hd2]) v hv)
      obtain ⟨e2, heq2, hgood2, hnd2, hroot2, hfrom2, hcompl2⟩ := hrest
      refine ⟨e1 ++ e2, ?_, ?_, ?_, ?_, ?_, ?_⟩
      · rw [hstep, heq2, List.append_assoc]
      · rw [← List.append_assoc]
        exact hgood2
      · rw [← List.append_assoc]
        exact hnd2
      · intro p hp
        rcases List.mem_append.mp hp with h | h
        · exact hroot1 p h
        · exact hroot2 p h
      · intro p hp
        rcases List.mem_append.mp hp with h | h
        · exact ⟨d, by simp, hname1 p h⟩
        · obtain ⟨d2, hd2, hr⟩ := hfrom2 p h
          exact ⟨d2, by simp [hd2], hr⟩
      · intro d2 hd2 q hq
        rcases List.mem_cons.mp hd2 with h | h
        · subst h
          have hin := hcompl1 q hq
          simp only [List.mem_append] at hin ⊢
          tauto
        · have hin := hcompl2 d2 h q hq
          simp only [List.mem_append] at hin ⊢
          tauto


/-- Claim C8: whenever every package reachable from the root is loadable and
the reachable dependency graph is acyclic (witnessed by a rank function that
strictly decreases along dependency edges), resolve_all returns exactly the
transitive dependency closure of the root, each package once, every package
after all of its dependencies, the root last; and on the two-package cycle
a to b to a it returns CircularDependency for either root. -/
theorem C8_resolve_all_topological :
    (∀ (g : Graph) (root : String) (rank : String → Nat),
      (∀ p, Reach g root p → (lookupG g p).isSome = true) →
      (∀ p deps d, Reach g root p → lookupG g p = some deps → d ∈ deps →
        rank d < rank p) →
      ∃ l, resolve_all g root = .ok l ∧ l.Nodup ∧
        (∀ p, p ∈ l ↔ Reach g root p) ∧ DepsFirst g l ∧
        l.getLast? = some root) ∧
    resolve_all cycleG "a" = .error (.circularDependency "a") ∧
    resolve_all cycleG "b" = .error (.circularDependency "b") := by
  refine ⟨?_, ?_, ?_⟩
  · intro g root rank Hload Hrank
    have hfuel : ((g.map Prod.fst).dedup).length + 1
        ≤ (g.length + 1) + ([] : List String).length := by
      have h1 : ((g.map Prod.fst).dedup).length ≤ (g.map Prod.fst).length :=
        (List.dedup_sublist _).length_le
      simp only [List.length_map] at h1
      simp only [List.length_nil]
      omega
    have hmain := (resolveAux_correct g root rank Hload Hrank (g.length + 1)).1
      root [] [] (depsFirst_nil g) List.nodup_nil (by simp) List.nodup_nil
      (by simp) hfuel (Reach.refl root) (by simp)
    obtain ⟨ext, heq, hgood, hnd, _hroot, hname, hcompl, _hsk1, hsk2⟩ := hmain
    obtain ⟨pre1, hpre⟩ := hsk2 (by simp)
    refine ⟨ext, ?_, ?_, ?_, ?_, ?_⟩
    · simp only [resolve_all]
      rw [heq]
      simp
    · simpa using hnd
    · intro p
      constructor
      · intro hp
        exact hname p hp
      · intro hp
        have hin := hcompl p hp
        simpa using hin
    · have hg : ([] : List String) ++ ext = ext := List.nil_append ext
      rw [← hg]
      exact hgood
    · rw [hpre]
      exact List.getLast?_concat pre1
  · simp [resolve_all, resolveRec, resolveDeps, cycleG, lookupG, List.lookup]
  · simp [resolve_all, resolveRec, resolveDeps, cycleG, lookupG, List.lookup]

theorem lineG_reach_chars (p q : String) (h : Reach lineG p q) :
    (p = "a" ∨ p = "b") → (q = "a" ∨ q = "b") := by
  induction h with
  | refl a => exact id
  | step hL hd _ ih =>
    intro hp
    rcases hp with hp | hp
    · subst hp
      have hl : lookupG lineG "a" = some ["b"] := rfl
      rw [hl] at hL
      have hdeq := Option.some.inj hL
      subst hdeq
      simp only [List.mem_singleton] at hd
      subst hd
      exact ih (Or.inr rfl)
    · subst hp
      have hl : lookupG lineG "b" = some [] := rfl
      rw [hl] at hL
      have hdeq := Option.some.inj hL
      subst hdeq
      simp at hd

theorem lineG_lookup_cases (p : String) (deps : List String)
    (h : lookupG lineG p = some deps) :
    (p = "a" ∧ deps = ["b"]) ∨ (p = "b" ∧ deps = []) := by
  by_cases ha : p = "a"
  · subst ha
    have hl : lookupG lineG "a" = some ["b"] := rfl
    rw [hl] at h
    exact Or.inl ⟨rfl, (Option.some.inj h).symm⟩
  · by_cases hb : p = "b"
    · subst hb
      have hl : lookupG lineG "b" = some [] := rfl
      rw [hl] at h
      exact Or.inr ⟨rfl, (Option.some.inj h).symm⟩
    · exfalso
      have h1 : (p == "a") = false := beq_eq_false_iff_ne.mpr ha
      have h2 : (p == "b") = false := beq_eq_false_iff_ne.mpr hb
      simp [lookupG, lineG, List.lookup, h1, h2] at h

/-- Claim C8 witness: the acyclic part applied to the concrete two-package
graph lineG with root a (a depends on b, b on nothing). -/
theorem C8_resolve_all_topological_witness :
    ∃ l, resolve_all lineG "a" = .ok l ∧ l.Nodup ∧
      (∀ p, p ∈ l ↔ Reach lineG "a" p) ∧ DepsFirst lineG l ∧
      l.getLast? = some "a" := by
  refine C8_resolve_all_topological.1 lineG "a" rankW ?_ ?_
  · intro p hp
    rcases lineG_reach_chars "a" p hp (Or.inl rfl) with h | h <;> subst h <;> rfl
  · intro p deps d hp hl hd
    rcases lineG_lookup_cases p deps hl with ⟨hpa, hda⟩ | ⟨hpb, hdb⟩
    · subst hpa
      subst hda
      simp only [List.mem_singleton] at hd
      subst hd
      decide
    · subst hdb
      simp at hd
